import Mathlib

/-!
Verification of the AssppWeb server core against its specification.

This file contains a shallow embedding of the server-side subsystems:
the ZIP tail builder (`zipAppend.ts`), the Wisp tunnel session
(`WispProxy.ts`), the task store / download manager durable object
(`DownloadManager.ts`), and the proof-of-work gate (`middleware/auth.ts`).
Byte buffers are modelled as `List Nat` with each element < 256 at the
positions that matter; JavaScript 32-bit truncation (`>>> 0`, `& 0xff`)
is modelled with explicit `% 2 ^ 32` / `% 256`.
-/

namespace AssppWeb

/-- Byte buffers (`Uint8Array` / `Buffer`) are lists of naturals. -/
abbrev Bytes := List Nat

/-- `u16(buf, off)`: little-endian 16-bit read.  The source throws on an
out-of-bounds read; every call modelled below is in bounds (proved where it
matters), so the total `getD`-based model agrees with the source there. -/
def u16 (buf : Bytes) (off : Nat) : Nat :=
  buf.getD off 0 + 256 * buf.getD (off + 1) 0

/-- `u32(buf, off)`: little-endian 32-bit read (same bounds remark as `u16`). -/
def u32 (buf : Bytes) (off : Nat) : Nat :=
  buf.getD off 0 + 256 * buf.getD (off + 1) 0 + 65536 * buf.getD (off + 2) 0 +
    16777216 * buf.getD (off + 3) 0

/-- The two bytes written by `w16(buf, off, v)`; JavaScript bitwise ops
truncate to 32 bits first. -/
def toBytes16 (v : Nat) : Bytes :=
  [v % 2 ^ 32 % 256, v % 2 ^ 32 / 256 % 256]

/-- The four bytes written by `w32(buf, off, v)`. -/
def toBytes32 (v : Nat) : Bytes :=
  [v % 2 ^ 32 % 256, v % 2 ^ 32 / 256 % 256, v % 2 ^ 32 / 65536 % 256,
    v % 2 ^ 32 / 16777216 % 256]

/-- `buf.subarray(start, stop)` / a range read of `[start, stop)`. -/
def slice (buf : Bytes) (start stop : Nat) : Bytes :=
  (buf.drop start).take (stop - start)

namespace ZipAppend

/-! ### zipAppend.ts — pure-buffer ZIP central directory parser + appender -/

def SIG_LOCAL : Nat := 0x04034b50
def SIG_CD : Nat := 0x02014b50
def SIG_EOCD : Nat := 0x06054b50
def METHOD_STORED : Nat := 0

/-- One step of the CRC-32 table generator (`c & 1 ? 0xedb88320 ^ (c >>> 1) : c >>> 1`). -/
def crcStep (c : Nat) : Nat :=
  if c % 2 = 1 then Nat.xor 0xedb88320 (c / 2) else c / 2

/-- `CRC_TABLE[i]`: eight generator steps applied to `i`. -/
def crcTable (i : Nat) : Nat := crcStep^[8] i

/-- `crc32(data)` with the standard 0xEDB88320 polynomial. -/
def crc32 (data : Bytes) : Nat :=
  Nat.xor
    (data.foldl (fun crc b => Nat.xor (crcTable (Nat.xor crc b % 256)) (crc / 256))
      0xffffffff)
    0xffffffff

/-- Errors surfaced by the ZIP tail builder. `notAZip` is the
"EOCD signature not found — not a valid ZIP file" error, `zip64` the
"ZIP64 archives are not supported" error, `truncatedCd` the `RangeError`
thrown while walking a truncated central directory. -/
inductive ZipErr where
  | notAZip
  | zip64
  | truncatedCd
deriving DecidableEq

/-- The parsed EOCD record. -/
structure Eocd where
  offset : Nat
  entryCount : Nat
  cdSize : Nat
  cdOffset : Nat
deriving DecidableEq

/-- The backward scan of `findEocd`: probe index `i`, then `i - 1`, …, with
`fuel` counting the remaining probes (the JS loop runs from
`tail.length - 22` down to `tail.length - maxSearch`, i.e. `maxSearch - 21`
probes, then throws). A candidate whose disk-entries count differs from its
total-entries count is skipped (`continue` in the source). -/
def findEocdLoop (tail : Bytes) (archiveSize : Nat) : Nat → Nat → Except ZipErr Eocd
  | _, 0 => .error .notAZip
  | i, fuel + 1 =>
    if u32 tail i = SIG_EOCD then
      let diskEntries := u16 tail (i + 8)
      let totalEntries := u16 tail (i + 10)
      if diskEntries ≠ totalEntries then
        findEocdLoop tail archiveSize (i - 1) fuel
      else
        let cdSize := u32 tail (i + 12)
        let cdOffsetRaw := u32 tail (i + 16)
        if cdOffsetRaw = 0xffffffff ∨ totalEntries = 0xffff then .error .zip64
        else .ok ⟨i + (archiveSize - tail.length), totalEntries, cdSize, cdOffsetRaw⟩
    else
      findEocdLoop tail archiveSize (i - 1) fuel

/-- `findEocd(tail, archiveSize)`.  When `tail.length < 22` the JS loop body
never executes (the start index is negative) and the function throws the
not-a-ZIP error. -/
def findEocd (tail : Bytes) (archiveSize : Nat) : Except ZipErr Eocd :=
  if tail.length < 22 then .error .notAZip
  else findEocdLoop tail archiveSize (tail.length - 22) (min tail.length (65535 + 22) - 21)

/-- A parsed central-directory entry.  `name` keeps the raw name bytes (the
source decodes them to a string with `TextDecoder`). -/
structure CdEntry where
  name : Bytes
  method : Nat
  crc32 : Nat
  compressedSize : Nat
  uncompressedSize : Nat
  localOffset : Nat
  cdEntryOffset : Nat
  cdEntryLength : Nat
  extra : Bytes
  comment : Bytes
  raw : Bytes
deriving DecidableEq

/-- The walk of `parseCentralDirectory`; `pos` advances by
`46 + nameLen + extraLen + commentLen` per entry. -/
def parseCdLoop (cd : Bytes) (pos : Nat) : Except ZipErr (List CdEntry) :=
  if hpos : pos < cd.length then
    if cd.length < pos + 4 then .ok []
    else if u32 cd pos ≠ SIG_CD then .ok []
    else if cd.length < pos + 46 then .error .truncatedCd
    else
      let nameLen := u16 cd (pos + 28)
      let extraLen := u16 cd (pos + 30)
      let commentLen := u16 cd (pos + 32)
      if hEnd : cd.length < pos + 46 + nameLen + extraLen + commentLen then .error .truncatedCd
      else
        match parseCdLoop cd (pos + 46 + nameLen + extraLen + commentLen) with
        | .error e => .error e
        | .ok rest =>
          .ok ({ name := slice cd (pos + 46) (pos + 46 + nameLen)
                 method := u16 cd (pos + 10)
                 crc32 := u32 cd (pos + 16)
                 compressedSize := u32 cd (pos + 20)
                 uncompressedSize := u32 cd (pos + 24)
                 localOffset := u32 cd (pos + 42)
                 cdEntryOffset := pos
                 cdEntryLength := 46 + nameLen + extraLen + commentLen
                 extra := slice cd (pos + 46 + nameLen) (pos + 46 + nameLen + extraLen)
                 comment := slice cd (pos + 46 + nameLen + extraLen)
                   (pos + 46 + nameLen + extraLen + commentLen)
                 raw := slice cd pos (pos + 46 + nameLen + extraLen + commentLen) } :: rest)
  else .ok []
termination_by cd.length - pos
decreasing_by omega

/-- `parseCentralDirectory(cd)`: walk the whole block from offset 0. -/
def parseCentralDirectory (cd : Bytes) : Except ZipErr (List CdEntry) :=
  parseCdLoop cd 0

/-- A file to append: path bytes (UTF-8-encoded name) and data. -/
structure AppendFile where
  name : Bytes
  data : Bytes
deriving DecidableEq

/-- `buildLocalEntry(name, data)`: 30-byte stored local header + name + data. -/
def buildLocalEntry (name data : Bytes) : Bytes :=
  toBytes32 SIG_LOCAL ++ toBytes16 20 ++ toBytes16 0 ++ toBytes16 METHOD_STORED ++
    toBytes16 0 ++ toBytes16 0 ++ toBytes32 (crc32 data) ++ toBytes32 data.length ++
    toBytes32 data.length ++ toBytes16 name.length ++ toBytes16 0 ++ name ++ data

/-- `buildCdEntry(name, data, localOffset)`: 46-byte CD header + name. -/
def buildCdEntry (name data : Bytes) (localOffset : Nat) : Bytes :=
  toBytes32 SIG_CD ++ toBytes16 20 ++ toBytes16 20 ++ toBytes16 0 ++
    toBytes16 METHOD_STORED ++ toBytes16 0 ++ toBytes16 0 ++ toBytes32 (crc32 data) ++
    toBytes32 data.length ++ toBytes32 data.length ++ toBytes16 name.length ++
    toBytes16 0 ++ toBytes16 0 ++ toBytes16 0 ++ toBytes16 0 ++ toBytes32 0 ++
    toBytes32 localOffset ++ name

/-- The fresh 22-byte EOCD emitted by both append functions. -/
def buildEocd (totalEntries cdSize cdOffset : Nat) : Bytes :=
  toBytes32 SIG_EOCD ++ toBytes16 0 ++ toBytes16 0 ++ toBytes16 totalEntries ++
    toBytes16 totalEntries ++ toBytes32 cdSize ++ toBytes32 cdOffset ++ toBytes16 0

/-- The per-file loop shared by `appendToZip` and `appendToZipTail`: build the
new local blocks, record each file's local-header offset starting at the old
`cdOffset`, and build the matching CD entries.  Returns
`(newLocalBlocks, newCdBlocks, appendOffset)`. -/
def buildNewEntries : List AppendFile → Nat → List Bytes × List Bytes × Nat
  | [], off => ([], [], off)
  | f :: rest, off =>
    let localBlock := buildLocalEntry f.name f.data
    let cdBlock := buildCdEntry f.name f.data off
    let nb := buildNewEntries rest (off + localBlock.length)
    (localBlock :: nb.1, cdBlock :: nb.2.1, nb.2.2)

/-- `appendToZipTail(archiveSize, readRange, files)` with `readRange`
instantiated (as the pipeline does) by range reads of the archive bytes.
Returns `(cdOffset, tail)`: copy `[0, cdOffset)` of the original and append
`tail`. -/
def appendToZipTail (archive : Bytes) (files : List AppendFile) :
    Except ZipErr (Nat × Bytes) :=
  if files.isEmpty then .ok (archive.length, [])
  else
    let archiveSize := archive.length
    let tailSize := min (65536 + 22) archiveSize
    match findEocd (slice archive (archiveSize - tailSize) archiveSize) archiveSize with
    | .error e => .error e
    | .ok eocd =>
      match parseCentralDirectory (slice archive eocd.cdOffset (eocd.cdOffset + eocd.cdSize)) with
      | .error e => .error e
      | .ok entries =>
        let nb := buildNewEntries files eocd.cdOffset
        let existingCdRaw := entries.map (·.raw)
        let newCdSize := (existingCdRaw.map List.length).sum + (nb.2.1.map List.length).sum
        let newEocd := buildEocd (entries.length + files.length) newCdSize nb.2.2
        .ok (eocd.cdOffset, nb.1.flatten ++ existingCdRaw.flatten ++ nb.2.1.flatten ++ newEocd)

/-- `appendToZip(archiveSize, readRange, files, readPrefix)`, with both read
callbacks instantiated by reads of the archive bytes.  Returns the complete
new archive. -/
def appendToZip (archive : Bytes) (files : List AppendFile) : Except ZipErr Bytes :=
  if files.isEmpty then .ok (archive.take archive.length)
  else
    let archiveSize := archive.length
    let tailSize := min (65536 + 22) archiveSize
    match findEocd (slice archive (archiveSize - tailSize) archiveSize) archiveSize with
    | .error e => .error e
    | .ok eocd =>
      match parseCentralDirectory (slice archive eocd.cdOffset (eocd.cdOffset + eocd.cdSize)) with
      | .error e => .error e
      | .ok entries =>
        let nb := buildNewEntries files eocd.cdOffset
        let existingCdRaw := entries.map (·.raw)
        let newCdSize := (existingCdRaw.map List.length).sum + (nb.2.1.map List.length).sum
        let newEocd := buildEocd (entries.length + files.length) newCdSize nb.2.2
        .ok (archive.take eocd.cdOffset ++ nb.1.flatten ++ existingCdRaw.flatten ++
          nb.2.1.flatten ++ newEocd)

/-- The part payloads written to the `.new` temp key by `injectSinf` after
`buildFilesToAppend` returned `filesToAppend` (the plist parsing that
produces that list relies on external libraries and is kept as an input).
The source returns before creating the multipart upload when the list is
empty; otherwise it uploads 50 MiB chunks of `[0, cdOffset)` with `tail`
concatenated onto the last chunk, or `tail` alone when `cdOffset = 0`. -/
def COPY_CHUNK : Nat := 50 * 1024 * 1024

/-- The chunking loop of `injectSinf`: chunks of `[offset, cdOffset)`. -/
def injectCopyParts (archive : Bytes) (cdOffset : Nat) (tl : Bytes) (offset : Nat) :
    List Bytes :=
  if h : offset < cdOffset then
    let length := min COPY_CHUNK (cdOffset - offset)
    let chunk := slice archive offset (offset + length)
    if cdOffset ≤ offset + length then [chunk ++ tl]
    else chunk :: injectCopyParts archive cdOffset tl (offset + length)
  else []
termination_by cdOffset - offset
decreasing_by simp [COPY_CHUNK]; omega

/-- `injectSinf` from the point where `filesToAppend` is known: the sequence
of multipart part payloads uploaded to the temp key (empty = no write). -/
def injectSinfParts (archive : Bytes) (filesToAppend : List AppendFile) :
    Except ZipErr (List Bytes) :=
  if filesToAppend.length = 0 then .ok []
  else
    match appendToZipTail archive filesToAppend with
    | .error e => .error e
    | .ok (cdOffset, tl) =>
      let parts := injectCopyParts archive cdOffset tl 0
      if parts.isEmpty then .ok [tl] else .ok parts


/-- Total byte length of the new local blocks for `files`. -/
def newLocalsLen (files : List AppendFile) : Nat :=
  (files.map (fun f => 30 + f.name.length + f.data.length)).sum

/-- Total byte length of the new CD entries for `files`. -/
def newCdLen (files : List AppendFile) : Nat :=
  (files.map (fun f => 46 + f.name.length)).sum

/-- Total byte length of the preserved raw CD bytes of `entries`. -/
def rawsLen (entries : List CdEntry) : Nat :=
  (entries.map (fun e => e.raw.length)).sum

/-- The tail returned by `appendToZipTail` on a non-empty file list, once the
EOCD and central directory of the input archive are known. -/
def newTail (files : List AppendFile) (eocd : Eocd) (entries : List CdEntry) : Bytes :=
  (buildNewEntries files eocd.cdOffset).1.flatten ++ (entries.map (·.raw)).flatten ++
    (buildNewEntries files eocd.cdOffset).2.1.flatten ++
    buildEocd (entries.length + files.length)
      (((entries.map (·.raw)).map List.length).sum +
        ((buildNewEntries files eocd.cdOffset).2.1.map List.length).sum)
      (buildNewEntries files eocd.cdOffset).2.2


/-- A 22-byte buffer holding a lone EOCD whose disk-entries count (1)
differs from its total-entries count (2): a multi-disk archive marker. -/
def multiDiskEocd : Bytes :=
  toBytes32 SIG_EOCD ++ toBytes16 0 ++ toBytes16 0 ++ toBytes16 1 ++ toBytes16 2 ++
    toBytes32 0 ++ toBytes32 0 ++ toBytes16 0

/-- A 22-byte buffer holding a lone EOCD whose `cdSize` field is the ZIP64
sentinel `0xFFFFFFFF` while every checked field is ordinary. -/
def cdSizeSentinelEocd : Bytes :=
  toBytes32 SIG_EOCD ++ toBytes16 0 ++ toBytes16 0 ++ toBytes16 1 ++ toBytes16 1 ++
    toBytes32 0xffffffff ++ toBytes32 0 ++ toBytes16 0

/-- A 22-byte buffer holding a lone EOCD with the `totalEntries = 0xFFFF`
ZIP64 sentinel and equal disk counts. -/
def zip64SentinelEocd : Bytes :=
  toBytes32 SIG_EOCD ++ toBytes16 0 ++ toBytes16 0 ++ toBytes16 0xffff ++ toBytes16 0xffff ++
    toBytes32 0 ++ toBytes32 0 ++ toBytes16 0


/-- The scan's acceptance test at probe index `i`: the EOCD signature is
present and the disk-entries count equals the total-entries count (the
`continue` in the source skips every other signature match). -/
def candidateAt (tail : Bytes) (i : Nat) : Prop :=
  u32 tail i = SIG_EOCD ∧ u16 tail (i + 8) = u16 tail (i + 10)

end ZipAppend

/-! ### Generic keyed storage (Durable Object storage / R2 listings)

Storage maps (`task:<id>`, `r2key:<id>`, `accounts:<hash>`, the R2 bucket
listing) are modelled as association lists with unique keys; `put`
overwrites, `delete` removes, `get` looks up.  Key order is irrelevant to
every property proved below. -/

/-- `storage.get(k)`. -/
def lookupKV {α : Type} (l : List (String × α)) (k : String) : Option α :=
  (l.find? (fun p => p.1 = k)).map (·.2)

/-- `storage.delete(k)`. -/
def eraseKV {α : Type} (l : List (String × α)) (k : String) : List (String × α) :=
  l.filter (fun p => ¬ p.1 = k)

/-- `storage.put(k, v)` (overwrite-or-insert). -/
def insertKV {α : Type} (l : List (String × α)) (k : String) (v : α) :
    List (String × α) :=
  (k, v) :: eraseKV l k

namespace WispProxy

/-! ### WispProxy.ts — tunnel session CONNECT admission -/

def CLOSE_REASON_INVALID_INFO : Nat := 0x41

/-- ASCII bytes of a string (the allowlist patterns are pure ASCII, so
`TextDecoder` round-trips them byte-for-byte). -/
def strBytes (s : String) : Bytes := s.data.map Char.toNat

def isDigitByte (b : Nat) : Bool := 48 ≤ b && b ≤ 57

/-- `/^p\d+-buy\.itunes\.apple\.com$/`: a `p`, a maximal nonempty digit run,
then the literal remainder (equivalent to the greedy regex because `-` is
not a digit). -/
def pBuyMatch (h : Bytes) : Bool :=
  match h with
  | [] => false
  | b :: rest =>
    b = 112 && rest.takeWhile isDigitByte ≠ [] &&
      rest.dropWhile isDigitByte = strBytes "-buy.itunes.apple.com"

/-- `ALLOWED_HOSTS.some((r) => r.test(hostname))`. -/
def allowedHost (h : Bytes) : Bool :=
  h = strBytes "auth.itunes.apple.com" || h = strBytes "buy.itunes.apple.com" ||
    h = strBytes "init.itunes.apple.com" || pBuyMatch h

/-- Split a hostname at `.` (byte 46). -/
def splitDot : Bytes → List Bytes
  | [] => [[]]
  | c :: rest =>
    if c = 46 then [] :: splitDot rest
    else
      match splitDot rest with
      | g :: gs => (c :: g) :: gs
      | [] => [[c]]

/-- An IPv4 dotted-quad literal (`\d+\.\d+\.\d+\.\d+`), per the spec's
"literal IPs must be rejected" requirement. -/
def isDottedQuad (h : Bytes) : Bool :=
  match splitDot h with
  | [a, b, c, d] =>
    a ≠ [] && b ≠ [] && c ≠ [] && d ≠ [] &&
      a.all isDigitByte && b.all isDigitByte && c.all isDigitByte && d.all isDigitByte
  | _ => false

/-- A bracketed IPv6 literal starts with `[` (byte 91). -/
def isBracketedIPv6 (h : Bytes) : Bool := h.head? = some 91

/-- The decision `handleConnect` takes on a CONNECT payload: either send
CLOSE with a reason and open nothing, or open a TCP socket to
`hostname:port`.  (Socket failures after admission send CLOSE 0x02; they are
environmental and happen only after an open attempt.) -/
inductive ConnectAction where
  | close (reason : Nat)
  | openTcp (hostname : Bytes) (port : Nat)
deriving DecidableEq

/-- `handleConnect(streamId, payload)`: payload layout
`[streamType: u8][port: u16 LE][hostname bytes]`. -/
def handleConnect (payload : Bytes) : ConnectAction :=
  if payload.length < 4 then .close CLOSE_REASON_INVALID_INFO
  else
    let streamType := payload.getD 0 0
    let port := u16 payload 1
    let hostname := payload.drop 3
    if streamType ≠ 1 ∨ port ≠ 443 ∨ ¬ allowedHost hostname then
      .close CLOSE_REASON_INVALID_INFO
    else .openTcp hostname port

end WispProxy

namespace DownloadManager

/-! ### DownloadManager.ts — task store, download pipeline, janitor -/

def MIN_ACCOUNT_HASH_LENGTH : Nat := 8
def UPLOAD_PART_SIZE : Nat := 25 * 1024 * 1024

structure Software where
  bundleID : String
  version : String
  name : String
deriving DecidableEq

structure Sinf where
  id : Nat
  sinf : String
deriving DecidableEq

inductive TaskStatus where
  | pending
  | downloading
  | paused
  | injecting
  | completed
  | failed
deriving DecidableEq

/-- A stored task record.  `createdAt` is the epoch-millisecond timestamp
(the source stores an ISO string and compares `Date.getTime()` values, which
order identically). -/
structure DownloadTask where
  id : String
  software : Software
  accountHash : String
  downloadURL : String
  sinfs : List Sinf
  iTunesMetadata : Option String
  status : TaskStatus
  progress : Nat
  speed : String
  error : Option String
  createdAt : Nat
  filePath : Option String
deriving DecidableEq

/-- Durable Object storage plus the R2 bucket.  `tasks` holds `task:<id>`
records keyed by id, `r2keys` holds `r2key:<id>` values, `accounts` holds
`accounts:<hash>` id lists, and `bucket` maps R2 object keys to sizes. -/
structure StoreState where
  tasks : List (String × DownloadTask)
  r2keys : List (String × String)
  accounts : List (String × List String)
  bucket : List (String × Nat)
deriving DecidableEq

def loadTask (s : StoreState) (id : String) : Option DownloadTask :=
  lookupKV s.tasks id

def saveTask (s : StoreState) (t : DownloadTask) : StoreState :=
  { s with tasks := insertKV s.tasks t.id t }

def addToAccountIndex (s : StoreState) (accountHash taskId : String) : StoreState :=
  let existing := (lookupKV s.accounts accountHash).getD []
  if taskId ∈ existing then s
  else { s with accounts := insertKV s.accounts accountHash (existing ++ [taskId]) }

def removeFromAccountIndex (s : StoreState) (accountHash taskId : String) : StoreState :=
  let existing := (lookupKV s.accounts accountHash).getD []
  { s with accounts := insertKV s.accounts accountHash (existing.filter (· ≠ taskId)) }

/-- Returned task records are modelled as JSON-like field lists so that the
*absence* of a field is expressible. -/
inductive Val where
  | vStr (s : String)
  | vNat (n : Nat)
  | vBool (b : Bool)
  | vSoftware (sw : Software)
  | vSinfs (l : List Sinf)
  | vStatus (st : TaskStatus)
  | vNone
deriving DecidableEq

abbrev Record := List (String × Val)

/-- The own fields of a `DownloadTask` object as serialized/spread. -/
def DownloadTask.toRecord (t : DownloadTask) : Record :=
  [("id", .vStr t.id), ("software", .vSoftware t.software),
   ("accountHash", .vStr t.accountHash), ("downloadURL", .vStr t.downloadURL),
   ("sinfs", .vSinfs t.sinfs),
   ("iTunesMetadata", match t.iTunesMetadata with | some m => .vStr m | none => .vNone),
   ("status", .vStatus t.status), ("progress", .vNat t.progress),
   ("speed", .vStr t.speed),
   ("error", match t.error with | some e => .vStr e | none => .vNone),
   ("createdAt", .vNat t.createdAt),
   ("filePath", match t.filePath with | some p => .vStr p | none => .vNone)]

def secretFields : List String := ["downloadURL", "sinfs", "iTunesMetadata", "filePath"]

/-- `sanitize(task, hasFile, fileSize)`: rest-spread of the record minus the
four secret fields, plus `hasFile` and `fileSize`. -/
def sanitize (r : Record) (hasFile : Bool) (fileSize : Option Nat) : Record :=
  r.filter (fun kv => ¬ secretFields.contains kv.1) ++
    [("hasFile", .vBool hasFile),
     ("fileSize", match fileSize with | some n => .vNat n | none => .vNone)]

structure CreateTaskParams where
  software : Software
  accountHash : String
  downloadURL : String
  sinfs : List Sinf
  iTunesMetadata : Option String
deriving DecidableEq

inductive StoreErr where
  | badURL
  | badAccountHash
  | conflict
deriving DecidableEq

/-- `env.IPA_BUCKET.head(key)`: the size of the object, if present. -/
def bucketHead (s : StoreState) (key : String) : Option Nat :=
  lookupKV s.bucket key

/-- `createTask(params)`.  `urlOk` is the outcome of
`validateDownloadURL(params.downloadURL)` (the platform `URL` parser is
environmental); `newId` is the fresh `crypto.randomUUID()`; `now` the
creation time.  The dedup scan walks the caller's account index and rejects
when a non-`failed` task with the same bundleID and version exists. -/
def createTask (s : StoreState) (p : CreateTaskParams) (urlOk : Bool) (newId : String)
    (now : Nat) : Except StoreErr (StoreState × Record) :=
  if ¬ urlOk then .error .badURL
  else if p.accountHash.length < MIN_ACCOUNT_HASH_LENGTH then .error .badAccountHash
  else
    let existingIds := (lookupKV s.accounts p.accountHash).getD []
    if existingIds.any (fun eid =>
        match loadTask s eid with
        | some t =>
          t.software.bundleID = p.software.bundleID ∧ t.software.version = p.software.version ∧
            t.status ≠ .failed
        | none => false) then
      .error .conflict
    else
      let task : DownloadTask :=
        { id := newId, software := p.software, accountHash := p.accountHash,
          downloadURL := p.downloadURL, sinfs := p.sinfs,
          iTunesMetadata := p.iTunesMetadata, status := .pending, progress := 0,
          speed := "0 B/s", error := none, createdAt := now, filePath := none }
      let s := saveTask s task
      let s := addToAccountIndex s p.accountHash newId
      .ok (s, sanitize task.toRecord false none)

/-- `getTask(id, accountHash)`. -/
def getTask (s : StoreState) (id accountHash : String) : Option Record :=
  match loadTask s id with
  | none => none
  | some t =>
    if t.accountHash ≠ accountHash then none
    else
      let r2key := lookupKV s.r2keys id
      let head := r2key.bind (bucketHead s)
      some (sanitize t.toRecord head.isSome head)

/-- `listTasks(accountHashes)`. -/
def listTasks (s : StoreState) (accountHashes : List String) : List Record :=
  (accountHashes.map (fun hash =>
    ((lookupKV s.accounts hash).getD []).filterMap (fun id =>
      match loadTask s id with
      | none => none
      | some t =>
        let r2key := lookupKV s.r2keys id
        let head := r2key.bind (bucketHead s)
        some (sanitize t.toRecord head.isSome head)))).flatten

/-- `getTaskPublic(id)`: no tenant check, completed tasks only. -/
def getTaskPublic (s : StoreState) (id : String) : Option Record :=
  match loadTask s id with
  | none => none
  | some t =>
    if t.status ≠ .completed then none
    else
      let r2key := lookupKV s.r2keys id
      let hasFile := r2key.isSome && (r2key.bind (bucketHead s)).isSome
      some [("software", .vSoftware t.software), ("hasFile", .vBool hasFile)]

/-- The deterministic artifact key `packages/<hash>/<bundleID>/<id>.ipa`. -/
def computedKey (accountHash bundleID id : String) : String :=
  "packages/" ++ accountHash ++ "/" ++ bundleID ++ "/" ++ id ++ ".ipa"

/-- `deleteR2Files(id, accountHash, r2key, task)`: batch-delete the stored
key, the computed key and its `.new` sibling from the bucket. -/
def deleteR2Files (s : StoreState) (id accountHash : String) (r2key : Option String)
    (task : Option DownloadTask) : StoreState :=
  let keys₁ : List String := match r2key with | some k => [k] | none => []
  let keys₂ : List String :=
    match task with
    | some t =>
      [computedKey accountHash t.software.bundleID id,
       computedKey accountHash t.software.bundleID id ++ ".new"]
    | none => []
  { s with bucket := (keys₁ ++ keys₂).foldl eraseKV s.bucket }

/-- `deleteTask(id, accountHash)`. -/
def deleteTask (s : StoreState) (id accountHash : String) : Bool × StoreState :=
  match loadTask s id with
  | none => (false, s)
  | some t =>
    if t.accountHash ≠ accountHash then (false, s)
    else
      let storedR2Key := lookupKV s.r2keys id
      let s := deleteR2Files s id accountHash storedR2Key (some t)
      let s := { s with tasks := eraseKV s.tasks id, r2keys := eraseKV s.r2keys id }
      let s := removeFromAccountIndex s accountHash id
      (true, s)

/-- The completion transition at the end of `startDownload` (clear secrets,
mark `completed`, save, then put `r2key:<id>`). -/
def completeTransition (s : StoreState) (t : DownloadTask) (r2key : String) : StoreState :=
  let t := { t with status := .completed, progress := 100, downloadURL := "",
                    sinfs := [], iTunesMetadata := none }
  let s := saveTask s t
  { s with r2keys := insertKV s.r2keys t.id r2key }

/-! #### streamToR2 — chunk buffering and multipart upload -/

/-- `mergeChunks(chunks, size)` body: copy into the `size`-byte target until
filled, pass everything after the fill point to `remaining`.  `need` is the
space left in the target (`filled` in the source is `need = 0`). -/
def mergeChunksGo : List Bytes → Nat → Bytes × List Bytes
  | [], _ => ([], [])
  | c :: rest, need =>
    if need = 0 then ([], c :: rest)
    else if c.length ≤ need then
      let mr := mergeChunksGo rest (need - c.length)
      (c ++ mr.1, mr.2)
    else (c.take need, c.drop need :: rest)

/-- `mergeChunks(chunks, size)`: the target is allocated zero-filled at
exactly `size` bytes. -/
def mergeChunks (chunks : List Bytes) (size : Nat) : Bytes × List Bytes :=
  let mr := mergeChunksGo chunks size
  (mr.1 ++ List.replicate (size - mr.1.length) 0, mr.2)

/-- `mergeAll(chunks, totalSize)` merges every chunk into a `totalSize`
buffer. -/
def mergeAll (chunks : List Bytes) (totalSize : Nat) : Bytes :=
  (mergeChunksGo chunks totalSize).1 ++
    List.replicate (totalSize - (mergeChunksGo chunks totalSize).1.length) 0

/-- In-flight state of `streamToR2`: buffered chunks and their byte count,
the next part number, the parts uploaded so far (in upload order), and the
single `pendingUpload` double-buffer slot. -/
structure UploadState where
  chunks : List Bytes
  bufferSize : Nat
  partNum : Nat
  parts : List (Nat × Bytes)
  pending : Option (Nat × Bytes)
deriving DecidableEq

/-- The `while (bufferSize >= UPLOAD_PART_SIZE * 2)` loop of `flushBuffer`:
synchronously upload full parts. -/
def flushWhile (st : UploadState) : UploadState :=
  if h : 2 * UPLOAD_PART_SIZE ≤ st.bufferSize then
    let m := mergeChunks st.chunks UPLOAD_PART_SIZE
    flushWhile
      { chunks := m.2, bufferSize := st.bufferSize - UPLOAD_PART_SIZE,
        partNum := st.partNum + 1, parts := st.parts ++ [(st.partNum, m.1)],
        pending := st.pending }
  else st
termination_by st.bufferSize
decreasing_by simp only [UPLOAD_PART_SIZE] at *; omega

/-- Resolve the `pendingUpload` promise: its part joins `parts`. -/
def awaitPending (st : UploadState) : UploadState :=
  match st.pending with
  | some pr => { st with parts := st.parts ++ [pr], pending := none }
  | none => st

/-- `flushBuffer()`: await the pending upload, drain all-but-one full parts
synchronously, then fire the last full part into the pending slot. -/
def flushBuffer (st : UploadState) : UploadState :=
  let st := awaitPending st
  let st := flushWhile st
  if UPLOAD_PART_SIZE ≤ st.bufferSize then
    let m := mergeChunks st.chunks UPLOAD_PART_SIZE
    { chunks := m.2, bufferSize := st.bufferSize - UPLOAD_PART_SIZE,
      partNum := st.partNum + 1, parts := st.parts,
      pending := some (st.partNum, m.1) }
  else st

/-- One `reader.read()` result: push the chunk, and flush when at least one
full part is buffered. -/
def processChunk (st : UploadState) (value : Bytes) : UploadState :=
  let st := { st with chunks := st.chunks ++ [value],
                      bufferSize := st.bufferSize + value.length }
  if UPLOAD_PART_SIZE ≤ st.bufferSize then flushBuffer st else st

/-- The `while (bufferSize >= UPLOAD_PART_SIZE)` drain after stream end. -/
def drainFull (st : UploadState) : UploadState :=
  if h : UPLOAD_PART_SIZE ≤ st.bufferSize then
    let m := mergeChunks st.chunks UPLOAD_PART_SIZE
    drainFull
      { chunks := m.2, bufferSize := st.bufferSize - UPLOAD_PART_SIZE,
        partNum := st.partNum + 1, parts := st.parts ++ [(st.partNum, m.1)],
        pending := st.pending }
  else st
termination_by st.bufferSize
decreasing_by simp only [UPLOAD_PART_SIZE] at *; omega

/-- After the read loop: await the pending part, upload remaining full
parts, then the trailing partial part. -/
def finishStream (st : UploadState) : UploadState :=
  let st := awaitPending st
  let st := drainFull st
  if 0 < st.bufferSize then
    { st with parts := st.parts ++ [(st.partNum, mergeAll st.chunks st.bufferSize)],
              partNum := st.partNum + 1 }
  else st

/-- Stable insertion used to model `parts.sort((a, b) => a.partNumber - b.partNumber)`. -/
def insertPart (p : Nat × Bytes) : List (Nat × Bytes) → List (Nat × Bytes)
  | [] => [p]
  | q :: qs => if p.1 ≤ q.1 then p :: q :: qs else q :: insertPart p qs

def sortParts (l : List (Nat × Bytes)) : List (Nat × Bytes) :=
  l.foldr insertPart []

/-- `streamToR2` restricted to its observable upload behaviour: the list of
`(partNumber, payload)` pairs submitted to `complete`, for a body delivered
as `incoming` chunks. -/
def streamToR2 (incoming : List Bytes) : List (Nat × Bytes) :=
  sortParts (finishStream (incoming.foldl processChunk ⟨[], 0, 1, [], none⟩)).parts

/-! #### cleanupExpired — the janitor -/

/-- An element of the janitor's `allTasks` working list. -/
structure CEntry where
  id : String
  task : DownloadTask
  r2key : Option String
deriving DecidableEq

/-- `purgeTask(id, accountHash, r2key, task)` on the durable state. -/
def purgeTask (s : StoreState) (e : CEntry) : StoreState :=
  let s := deleteR2Files s e.id e.task.accountHash e.r2key (some e.task)
  let s := { s with tasks := eraseKV s.tasks e.id, r2keys := eraseKV s.r2keys e.id }
  removeFromAccountIndex s e.task.accountHash e.id

/-- Janitor bookkeeping: the store, the in-memory `sizeMap` snapshot of the
bucket, and the running `totalSize`. -/
structure JState where
  store : StoreState
  sizeMap : List (String × Nat)
  total : Nat
deriving DecidableEq

/-- Purge a task and update `sizeMap` / `totalSize` as the janitor does. -/
def purgeEntry (st : JState) (e : CEntry) : JState :=
  let size := match e.r2key with | some k => (lookupKV st.sizeMap k).getD 0 | none => 0
  let sizeMap := match e.r2key with | some k => eraseKV st.sizeMap k | none => st.sizeMap
  ⟨purgeTask st.store e, sizeMap, st.total - size⟩

/-- Collect `allTasks` (each with its `r2key:<id>` lookup). -/
def collectTasks (s : StoreState) : List CEntry :=
  s.tasks.map (fun p => ⟨p.1, p.2, lookupKV s.r2keys p.1⟩)

/-- Phase 1 (age): purge every task older than the cutoff, iterating over a
copy while removing from the working list.  Returns the state, the
survivors, and `deletedByAge`. -/
def phase1Go (entries : List CEntry) (cutoff : Nat) (st : JState) :
    JState × List CEntry × Nat :=
  entries.foldl
    (fun acc e =>
      if e.task.createdAt < cutoff then (purgeEntry acc.1 e, acc.2.1, acc.2.2 + 1)
      else (acc.1, acc.2.1 ++ [e], acc.2.2))
    (st, [], 0)

/-- Phase 1 with its `days > 0` guard; `cutoff = now − days·86400000` ms. -/
def phase1 (days now : Nat) (st : JState) (entries : List CEntry) :
    JState × List CEntry × Nat :=
  if 0 < days then phase1Go entries (now - days * 24 * 60 * 60 * 1000) st
  else (st, entries, 0)

/-- Stable insertion sort by `createdAt` modelling
`allTasks.sort((a, b) => createdAt(a) - createdAt(b))`. -/
def insertByCreated (e : CEntry) : List CEntry → List CEntry
  | [] => [e]
  | x :: xs =>
    if e.task.createdAt ≤ x.task.createdAt then e :: x :: xs
    else x :: insertByCreated e xs

def sortByCreated (l : List CEntry) : List CEntry :=
  l.foldr insertByCreated []

/-- The quota loop: break as soon as `totalSize ≤ maxBytes`, else purge the
next-oldest entry.  Also returns the purged ids in purge order. -/
def phase2Go (maxBytes : Nat) : List CEntry → JState → JState × List String
  | [], st => (st, [])
  | e :: rest, st =>
    if st.total ≤ maxBytes then (st, [])
    else
      let res := phase2Go maxBytes rest (purgeEntry st e)
      (res.1, e.id :: res.2)

/-- Phase 2 (quota) with its `maxMB > 0` and `totalSize > maxBytes` guards;
survivors are sorted by `createdAt` ascending before purging. -/
def phase2 (maxMB : Nat) (st : JState) (survivors : List CEntry) : JState × List String :=
  if 0 < maxMB ∧ maxMB * 1024 * 1024 < st.total then
    phase2Go (maxMB * 1024 * 1024) (sortByCreated survivors) st
  else (st, [])

/-- Phase 3 (orphans): every `sizeMap` key not referenced by any `r2key:*`
value is batch-deleted from the bucket. -/
def phase3 (st : JState) : JState × Nat :=
  let known := st.store.r2keys.map (·.2)
  let orphans := st.sizeMap.filter (fun p => ¬ known.contains p.1)
  let st' : JState :=
    { store := { st.store with
        bucket := (orphans.map (·.1)).foldl eraseKV st.store.bucket },
      sizeMap := st.sizeMap, total := st.total - (orphans.map (·.2)).sum }
  (st', orphans.length)

/-- The cleanup summary.  The source reports `totalSizeMB` as a rounded
floating-point megabyte figure; the model keeps the raw byte total. -/
structure CleanupResult where
  deletedByAge : Nat
  deletedBySize : Nat
  deletedOrphaned : Nat
  totalSize : Nat
deriving DecidableEq

/-- `cleanupExpired(days, maxMB)` at time `now`: list tasks and the bucket,
then run the three phases. -/
def cleanupExpired (s : StoreState) (days maxMB now : Nat) :
    CleanupResult × StoreState :=
  let entries := collectTasks s
  let st0 : JState := ⟨s, s.bucket, (s.bucket.map (·.2)).sum⟩
  let p1 := phase1 days now st0 entries
  let p2 := phase2 maxMB p1.1 p1.2.1
  let p3 := phase3 p2.1
  (⟨p1.2.2, p2.2.length, p3.2, p3.1.total⟩, p3.1.store)


/-- No sanitized output carries a secret field. -/
def noSecrets (r : Record) : Prop :=
  ∀ k ∈ secretFields, k ∉ r.map Prod.fst

/-- C7 invariant: `r2key:<id>` exists iff the task record exists with status
`completed`. -/
def completedIff (s : StoreState) : Prop :=
  ∀ id, (lookupKV s.r2keys id).isSome ↔
    ∃ t, loadTask s id = some t ∧ t.status = TaskStatus.completed

/-- Store well-formedness maintained by the single-writer task store: task
keys are duplicate-free, each record is stored under its own id, and every
task id is listed in its account's index. -/
def WfState (s : StoreState) : Prop :=
  (s.tasks.map Prod.fst).Nodup ∧
  (∀ q ∈ s.tasks, q.2.id = q.1) ∧
  (∀ q ∈ s.tasks, q.1 ∈ (lookupKV s.accounts q.2.accountHash).getD [])

/-- The stored tasks with the given account hash, bundle id and version
whose status is not `failed`. -/
def nonFailedWith (s : StoreState) (h b v : String) : List DownloadTask :=
  (s.tasks.map Prod.snd).filter
    (fun t => t.accountHash = h ∧ t.software.bundleID = b ∧ t.software.version = v ∧
      t.status ≠ TaskStatus.failed)

/-- C6's invariant: at most one non-`failed` task per triple. -/
def dedupInv (s : StoreState) : Prop :=
  ∀ h b v, (nonFailedWith s h b v).length ≤ 1

/-- The invariant of the upload loop: the part counter starts at 1, the
uploaded parts followed by the pending slot carry exactly the numbers
`1, …, partNum − 1` in order, and every one of them is a full
`UPLOAD_PART_SIZE` part. -/
def UploadInv (st : UploadState) : Prop :=
  1 ≤ st.partNum ∧
  st.parts.map Prod.fst ++ (st.pending.map Prod.fst).toList =
    List.range' 1 (st.partNum - 1) ∧
  (∀ pr ∈ st.parts, pr.2.length = UPLOAD_PART_SIZE) ∧
  (∀ pr ∈ st.pending, pr.2.length = UPLOAD_PART_SIZE)

end DownloadManager

namespace Auth

/-! ### middleware/auth.ts — proof-of-work verification -/

def POW_CHALLENGE_TTL : Nat := 60
def MAX_USED_CHALLENGES : Nat := 10000

/-- `str.lastIndexOf(c)` on a character list. -/
def lastIdxOf (c : Char) : List Char → Option Nat
  | [] => none
  | x :: xs =>
    match lastIdxOf c xs with
    | some i => some (i + 1)
    | none => if x = c then some 0 else none

/-- `parseInt(s, 10)` restricted to a leading digit run: `none` models `NaN`
(no leading digits). -/
def parseIntPrefix (l : List Char) : Option Nat :=
  let digits := l.takeWhile (fun c => c.isDigit)
  if digits = [] then none
  else some (digits.foldl (fun acc c => acc * 10 + (c.toNat - 48)) 0)

/-- The timestamp embedded in a `timestamp:random:signature` challenge, as
`verifyPow` parses it. -/
def challengeTimestamp (challenge : String) : Option Nat :=
  match lastIdxOf ':' challenge.data with
  | none => none
  | some lc =>
    let payload := challenge.data.take lc
    match payload.findIdx? (· = ':') with
    | none => none
    | some fc => parseIntPrefix (payload.take fc)

/-- The module-level `usedChallenges` replay map (challenge → time marked). -/
abbrev PowState := List (String × Nat)

/-- `verifyPow(challenge, nonce)` at time `now` (seconds).  `hmacOk payload
sig` abstracts the Web-Crypto HMAC verification of the challenge signature
and `powOk challenge nonce` the SHA-256 leading-zero-bits difficulty check;
both are environmental crypto primitives fixed for the process.  A `none`
parsed timestamp models JS `NaN`, for which `now - timestamp > TTL` is
false. -/
def verifyPow (hmacOk : List Char → List Char → Bool)
    (powOk : String → String → Bool) (st : PowState) (challenge nonce : String)
    (now : Nat) : Bool × PowState :=
  match lastIdxOf ':' challenge.data with
  | none => (false, st)
  | some lc =>
    let payload := challenge.data.take lc
    let sigB64 := challenge.data.drop (lc + 1)
    if (lookupKV st challenge).isSome then (false, st)
    else if ¬ hmacOk payload sigB64 then (false, st)
    else
      match payload.findIdx? (· = ':') with
      | none => (false, st)
      | some fc =>
        if (match parseIntPrefix (payload.take fc) with
            | some ts => decide (POW_CHALLENGE_TTL < now - ts)
            | none => false) = true then (false, st)
        else if ¬ powOk challenge nonce then (false, st)
        else
          let st' := insertKV st challenge now
          let st'' :=
            if MAX_USED_CHALLENGES < st'.length then
              st'.filter (fun p => now - p.2 ≤ POW_CHALLENGE_TTL * 2)
            else st'
          (true, st'')

/-- Run a sequence of `verifyPow` calls `(challenge, nonce, time)`,
threading the replay map. -/
def execCalls (hmacOk : List Char → List Char → Bool)
    (powOk : String → String → Bool) (st : PowState)
    (calls : List (String × String × Nat)) : PowState :=
  calls.foldl (fun st c => (verifyPow hmacOk powOk st c.1 c.2.1 c.2.2).2) st

end Auth

/-! ## Theorems -/

namespace ZipAppend

/-- Reading past a prefix of known length lands in the suffix. -/
theorem getD_append_skip (xs ys : Bytes) (n k : Nat) (h : xs.length = n) :
    (xs ++ ys).getD (n + k) 0 = ys.getD k 0 := by
  subst h
  rw [List.getD_eq_getElem?_getD, List.getD_eq_getElem?_getD,
    List.getElem?_append_right (by omega : xs.length ≤ xs.length + k)]
  have h2 : xs.length + k - xs.length = k := by omega
  rw [h2]

theorem u16_append_skip (xs ys : Bytes) (n k : Nat) (h : xs.length = n) :
    u16 (xs ++ ys) (n + k) = u16 ys k := by
  unfold u16
  rw [getD_append_skip xs ys n k h]
  have hk : n + k + 1 = n + (k + 1) := by omega
  rw [hk, getD_append_skip xs ys n (k + 1) h]

theorem u32_append_skip (xs ys : Bytes) (n k : Nat) (h : xs.length = n) :
    u32 (xs ++ ys) (n + k) = u32 ys k := by
  unfold u32
  rw [getD_append_skip xs ys n k h]
  have h1 : n + k + 1 = n + (k + 1) := by omega
  have h2 : n + k + 2 = n + (k + 2) := by omega
  have h3 : n + k + 3 = n + (k + 3) := by omega
  rw [h1, getD_append_skip xs ys n (k + 1) h, h2, getD_append_skip xs ys n (k + 2) h,
    h3, getD_append_skip xs ys n (k + 3) h]

theorem toBytes16_length (v : Nat) : (toBytes16 v).length = 2 := by
  simp [toBytes16]

theorem toBytes32_length (v : Nat) : (toBytes32 v).length = 4 := by
  simp [toBytes32]

theorem buildEocd_length (te cs co : Nat) : (buildEocd te cs co).length = 22 := by
  simp [buildEocd, toBytes16, toBytes32]

theorem buildLocalEntry_length (name data : Bytes) :
    (buildLocalEntry name data).length = 30 + name.length + data.length := by
  simp [buildLocalEntry, toBytes16, toBytes32]
  omega

theorem buildCdEntry_length (name data : Bytes) (off : Nat) :
    (buildCdEntry name data off).length = 46 + name.length := by
  simp [buildCdEntry, toBytes16, toBytes32]
  omega

theorem buildEocd_u32_0 (te cs co : Nat) : u32 (buildEocd te cs co) 0 = SIG_EOCD := by
  simp only [buildEocd, toBytes16, toBytes32, u32, SIG_EOCD, List.cons_append, List.nil_append]
  norm_num [List.getD]

theorem buildEocd_u16_8 (te cs co : Nat) : u16 (buildEocd te cs co) 8 = te % 65536 := by
  simp only [buildEocd, toBytes16, toBytes32, u16, List.cons_append, List.nil_append]
  norm_num [List.getD]
  omega

theorem buildEocd_u16_10 (te cs co : Nat) : u16 (buildEocd te cs co) 10 = te % 65536 := by
  simp only [buildEocd, toBytes16, toBytes32, u16, List.cons_append, List.nil_append]
  norm_num [List.getD]
  omega

theorem buildEocd_u32_12 (te cs co : Nat) : u32 (buildEocd te cs co) 12 = cs % 2 ^ 32 := by
  simp only [buildEocd, toBytes16, toBytes32, u32, List.cons_append, List.nil_append]
  norm_num [List.getD]
  omega

theorem buildEocd_u32_16 (te cs co : Nat) : u32 (buildEocd te cs co) 16 = co % 2 ^ 32 := by
  simp only [buildEocd, toBytes16, toBytes32, u32, List.cons_append, List.nil_append]
  norm_num [List.getD]
  omega

/-- If every index in the scanned range fails the signature test, the
backward scan exhausts its probes and reports the not-a-ZIP error. -/
theorem findEocdLoop_nosig (tail : Bytes) (archiveSize : Nat) :
    ∀ fuel i, (∀ j, j ≤ i → u32 tail j ≠ SIG_EOCD) →
      findEocdLoop tail archiveSize i fuel = .error .notAZip := by
  intro fuel
  induction fuel with
  | zero => intro i _; rfl
  | succ f ih =>
    intro i h
    rw [findEocdLoop]
    rw [if_neg (h i le_rfl)]
    exact ih (i - 1) fun j hj => h j (by omega)

/-- The probe at the top index `tail.length - 22` succeeds immediately when
the signature matches, the disk counts agree and no ZIP64 sentinel fires. -/
theorem findEocd_probe_top (tail : Bytes) (archiveSize : Nat) (hlen : 22 ≤ tail.length)
    (hsig : u32 tail (tail.length - 22) = SIG_EOCD)
    (hdisk : u16 tail (tail.length - 14) = u16 tail (tail.length - 12))
    (hco : u32 tail (tail.length - 6) ≠ 0xffffffff)
    (hte : u16 tail (tail.length - 12) ≠ 0xffff) :
    findEocd tail archiveSize =
      .ok ⟨tail.length - 22 + (archiveSize - tail.length), u16 tail (tail.length - 12),
        u32 tail (tail.length - 10), u32 tail (tail.length - 6)⟩ := by
  unfold findEocd
  rw [if_neg (by omega)]
  have hf : min tail.length (65535 + 22) - 21 = (min tail.length (65535 + 22) - 22) + 1 := by
    omega
  rw [hf, findEocdLoop]
  have e8 : tail.length - 22 + 8 = tail.length - 14 := by omega
  have e10 : tail.length - 22 + 10 = tail.length - 12 := by omega
  have e12 : tail.length - 22 + 12 = tail.length - 10 := by omega
  have e16 : tail.length - 22 + 16 = tail.length - 6 := by omega
  rw [if_pos hsig]
  simp only [e8, e10, e12, e16]
  rw [if_neg (by simp [hdisk])]
  rw [if_neg (by push_neg; exact ⟨hco, hte⟩)]

/-- The probe at the top index skips a signature-matching candidate whose
disk-entries count differs from its total-entries count, and continues. -/
theorem findEocd_probe_top_multidisk (tail : Bytes) (archiveSize : Nat)
    (hlen : 22 ≤ tail.length) (hsig : u32 tail (tail.length - 22) = SIG_EOCD)
    (hdisk : u16 tail (tail.length - 14) ≠ u16 tail (tail.length - 12)) :
    findEocd tail archiveSize =
      findEocdLoop tail archiveSize (tail.length - 23) (min tail.length (65535 + 22) - 22) := by
  unfold findEocd
  rw [if_neg (by omega)]
  have hf : min tail.length (65535 + 22) - 21 = (min tail.length (65535 + 22) - 22) + 1 := by
    omega
  rw [hf, findEocdLoop]
  have e8 : tail.length - 22 + 8 = tail.length - 14 := by omega
  have e10 : tail.length - 22 + 10 = tail.length - 12 := by omega
  rw [if_pos hsig]
  simp only [e8, e10]
  rw [if_pos hdisk]
  have e23 : tail.length - 22 - 1 = tail.length - 23 := by omega
  rw [e23]

/-- C10 helper: on the empty file list every append operation degenerates. -/
theorem take_length_append_nil (archive : Bytes) :
    archive.take archive.length ++ ([] : Bytes) = archive := by
  simp

/-- C10: appending an empty file list is the identity: `appendToZipTail`
returns `cdOffset = archiveSize` and an empty tail (so prefix ++ tail is the
original archive byte-for-byte), `appendToZip` returns exactly the original
bytes, and the injection step uploads no parts when there are zero files to
append. -/
theorem c10_empty_append_is_identity (archive : Bytes) :
    appendToZipTail archive [] = .ok (archive.length, ([] : Bytes)) ∧
    archive.take archive.length ++ ([] : Bytes) = archive ∧
    appendToZip archive [] = .ok archive ∧
    injectSinfParts archive [] = .ok [] := by
  refine ⟨rfl, take_length_append_nil archive, ?_, rfl⟩
  simp [appendToZip]

/-- C5 counterexample: on a multi-disk EOCD (disk-entries 1 ≠ total-entries
2) `findEocd` does NOT fail with the Unsupported/ZIP64 error as the claim
states — the candidate is skipped and the scan ends in the not-a-ZIP error.
A `cdSize = 0xFFFFFFFF` ZIP64 sentinel is not detected at all: the call
succeeds. -/
theorem c5_findEocd_failure_modes_counterexample :
    findEocd multiDiskEocd 22 = .error .notAZip ∧
    (Except.error ZipErr.notAZip : Except ZipErr Eocd) ≠ .error .zip64 ∧
    findEocd cdSizeSentinelEocd 22 = .ok ⟨0, 1, 0xffffffff, 0⟩ := by
  refine ⟨rfl, by simp, rfl⟩

/-- Complete characterization of the backward scan: either no probe in the
fuel window is an acceptable candidate and the loop exhausts into the
not-a-ZIP error, or the first (highest-index) acceptable candidate `j`
determines the result — the ZIP64 error exactly when `j`'s cdOffset or
total-entries field carries its sentinel, and otherwise the parsed EOCD with
`j`'s cdSize field passed through unchecked. -/
theorem findEocdLoop_complete (tail : Bytes) (archiveSize : Nat) : ∀ fuel i,
    ((∀ j, j ≤ i → i < j + fuel → ¬ candidateAt tail j) ∧
        findEocdLoop tail archiveSize i fuel = .error .notAZip) ∨
    (∃ j, j ≤ i ∧ i < j + fuel ∧ candidateAt tail j ∧
        (∀ k, j < k → k ≤ i → ¬ candidateAt tail k) ∧
        findEocdLoop tail archiveSize i fuel =
          (if u32 tail (j + 16) = 0xffffffff ∨ u16 tail (j + 10) = 0xffff then
            Except.error ZipErr.zip64
          else .ok ⟨j + (archiveSize - tail.length), u16 tail (j + 10), u32 tail (j + 12),
            u32 tail (j + 16)⟩)) := by
  intro fuel
  induction fuel with
  | zero =>
    intro i
    exact .inl ⟨fun j hj hlt => absurd hlt (by omega), rfl⟩
  | succ f ih =>
    intro i
    by_cases hc : candidateAt tail i
    · right
      refine ⟨i, le_rfl, by omega, hc, fun k hk1 hk2 => absurd hk2 (by omega), ?_⟩
      obtain ⟨hsig, heq⟩ := hc
      rw [findEocdLoop, if_pos hsig]
      rw [if_neg (by simp [heq])]
    · have hstep : findEocdLoop tail archiveSize i (f + 1) =
          findEocdLoop tail archiveSize (i - 1) f := by
        rw [findEocdLoop]
        by_cases hsig : u32 tail i = SIG_EOCD
        · rw [if_pos hsig]
          have hne : u16 tail (i + 8) ≠ u16 tail (i + 10) := fun he => hc ⟨hsig, he⟩
          rw [if_pos hne]
        · rw [if_neg hsig]
      rcases ih (i - 1) with ⟨hnone, hres⟩ | ⟨j, hj1, hj2, hcand, hfirst, hres⟩
      · left
        refine ⟨?_, by rw [hstep]; exact hres⟩
        intro j hj hlt
        rcases Nat.lt_or_ge j i with hlt2 | hge
        · exact hnone j (by omega) (by omega)
        · have hji : j = i := by omega
          subst hji
          exact hc
      · right
        refine ⟨j, by omega, by omega, hcand, ?_, by rw [hstep]; exact hres⟩
        intro k hk1 hk2
        rcases Nat.lt_or_ge k i with hlt2 | hge
        · exact hfirst k hk1 (by omega)
        · have hki : k = i := by omega
          subst hki
          exact hc

/-- C5 (amended): `findEocd` fails with the not-a-ZIP error when no index in
the scanned range holds the EOCD signature; a signature match whose
disk-entries count differs from its total-entries count is skipped at any
probe — the scan steps on — so if every signature match in the scanned range
is such a multi-disk candidate the result is the not-a-ZIP error, not
Unsupported; the accepted candidate — the first (highest-index) probe in the
scanned range with the signature and equal counts — determines the result:
the Unsupported/ZIP64 error exactly when its cdOffset field is `0xFFFFFFFF`
or its total-entries field is `0xFFFF`; conversely a ZIP64 failure always
exhibits such an accepted candidate with one of those two sentinels, so the
cdSize field (`u32` at offset 12) is never checked. -/
theorem c5_findEocd_failure_modes_amended :
    (∀ (tail : Bytes) (archiveSize : Nat),
        (∀ j, j ≤ tail.length - 22 →
          tail.length - 22 < j + (min tail.length (65535 + 22) - 21) →
          u32 tail j ≠ SIG_EOCD) →
        findEocd tail archiveSize = .error .notAZip) ∧
    (∀ (tail : Bytes) (archiveSize : Nat) (i fuel : Nat),
        u32 tail i = SIG_EOCD → u16 tail (i + 8) ≠ u16 tail (i + 10) →
        findEocdLoop tail archiveSize i (fuel + 1) =
          findEocdLoop tail archiveSize (i - 1) fuel) ∧
    (∀ (tail : Bytes) (archiveSize : Nat),
        (∀ j, j ≤ tail.length - 22 →
          tail.length - 22 < j + (min tail.length (65535 + 22) - 21) →
          u32 tail j = SIG_EOCD → u16 tail (j + 8) ≠ u16 tail (j + 10)) →
        findEocd tail archiveSize = .error .notAZip) ∧
    (∀ (tail : Bytes) (archiveSize : Nat) (j : Nat), 22 ≤ tail.length →
        j ≤ tail.length - 22 →
        tail.length - 22 < j + (min tail.length (65535 + 22) - 21) →
        candidateAt tail j →
        (∀ k, j < k → k ≤ tail.length - 22 → ¬ candidateAt tail k) →
        findEocd tail archiveSize =
          (if u32 tail (j + 16) = 0xffffffff ∨ u16 tail (j + 10) = 0xffff then
            Except.error ZipErr.zip64
          else .ok ⟨j + (archiveSize - tail.length), u16 tail (j + 10), u32 tail (j + 12),
            u32 tail (j + 16)⟩)) ∧
    (∀ (tail : Bytes) (archiveSize : Nat),
        findEocd tail archiveSize = .error .zip64 →
        ∃ j, j ≤ tail.length - 22 ∧
          tail.length - 22 < j + (min tail.length (65535 + 22) - 21) ∧
          candidateAt tail j ∧
          (∀ k, j < k → k ≤ tail.length - 22 → ¬ candidateAt tail k) ∧
          (u32 tail (j + 16) = 0xffffffff ∨ u16 tail (j + 10) = 0xffff)) := by
  refine ⟨?_, ?_, ?_, ?_, ?_⟩
  · intro tail archiveSize h
    unfold findEocd
    by_cases hl : tail.length < 22
    · rw [if_pos hl]
    · rw [if_neg hl]
      rcases findEocdLoop_complete tail archiveSize (min tail.length (65535 + 22) - 21)
          (tail.length - 22) with ⟨_, hres⟩ | ⟨j, hj1, hj2, hcand, _, _⟩
      · exact hres
      · exact absurd hcand.1 (h j hj1 hj2)
  · intro tail archiveSize i fuel hsig hne
    rw [findEocdLoop, if_pos hsig, if_pos hne]
  · intro tail archiveSize h
    unfold findEocd
    by_cases hl : tail.length < 22
    · rw [if_pos hl]
    · rw [if_neg hl]
      rcases findEocdLoop_complete tail archiveSize (min tail.length (65535 + 22) - 21)
          (tail.length - 22) with ⟨_, hres⟩ | ⟨j, hj1, hj2, hcand, _, _⟩
      · exact hres
      · exact absurd hcand.2 (h j hj1 hj2 hcand.1)
  · intro tail archiveSize j hlen hj1 hj2 hcand hfirst
    unfold findEocd
    rw [if_neg (by omega)]
    rcases findEocdLoop_complete tail archiveSize (min tail.length (65535 + 22) - 21)
        (tail.length - 22) with ⟨hnone, _⟩ | ⟨j2, hj1b, hj2b, hcand2, hfirst2, hres⟩
    · exact absurd hcand (hnone j hj1 hj2)
    · have hjj : j = j2 := by
        rcases Nat.lt_trichotomy j j2 with h | h | h
        · exact absurd hcand2 (hfirst j2 h hj1b)
        · exact h
        · exact absurd hcand (hfirst2 j h hj1)
      subst hjj
      exact hres
  · intro tail archiveSize herr
    unfold findEocd at herr
    split at herr
    · cases herr
    · rcases findEocdLoop_complete tail archiveSize (min tail.length (65535 + 22) - 21)
          (tail.length - 22) with ⟨_, hres⟩ | ⟨j, hj1, hj2, hcand, hfirst, hres⟩
      · rw [hres] at herr
        cases herr
      · rw [hres] at herr
        split at herr
        · rename_i hs
          exact ⟨j, hj1, hj2, hcand, hfirst, hs⟩
        · cases herr

/-- C5 witness: the amended theorem applied to concrete 22-byte buffers —
an all-zero buffer (no signature anywhere in the scanned range), the
multi-disk buffer (skipped candidate, scan continues, final not-a-ZIP), the
totalEntries ZIP64 sentinel (accepted candidate with a checked sentinel, in
both directions), and the cdSize-sentinel buffer (accepted, returned, the
sentinel unchecked). -/
theorem c5_findEocd_failure_modes_amended_witness :
    findEocd (List.replicate 22 0) 22 = .error .notAZip ∧
    findEocdLoop multiDiskEocd 22 0 1 = findEocdLoop multiDiskEocd 22 0 0 ∧
    findEocd multiDiskEocd 22 = .error .notAZip ∧
    findEocd zip64SentinelEocd 22 = .error .zip64 ∧
    findEocd cdSizeSentinelEocd 22 = .ok ⟨0, 1, 0xffffffff, 0⟩ ∧
    (∃ j, j ≤ zip64SentinelEocd.length - 22 ∧
      zip64SentinelEocd.length - 22 < j + (min zip64SentinelEocd.length (65535 + 22) - 21) ∧
      candidateAt zip64SentinelEocd j ∧
      (∀ k, j < k → k ≤ zip64SentinelEocd.length - 22 → ¬ candidateAt zip64SentinelEocd k) ∧
      (u32 zip64SentinelEocd (j + 16) = 0xffffffff ∨
        u16 zip64SentinelEocd (j + 10) = 0xffff)) := by
  have hrep : (List.replicate 22 (0 : Nat)).length = 22 := by decide
  have hmd : multiDiskEocd.length = 22 := by decide
  have hzs : zip64SentinelEocd.length = 22 := by decide
  have hcs : cdSizeSentinelEocd.length = 22 := by decide
  refine ⟨?_, ?_, ?_, ?_, ?_, ?_⟩
  · refine c5_findEocd_failure_modes_amended.1 (List.replicate 22 0) 22 ?_
    intro j hj hlt
    rw [hrep] at hj
    have hj0 : j = 0 := by omega
    subst hj0
    decide
  · exact c5_findEocd_failure_modes_amended.2.1 multiDiskEocd 22 0 0 (by decide) (by decide)
  · refine c5_findEocd_failure_modes_amended.2.2.1 multiDiskEocd 22 ?_
    intro j hj hlt hsig
    rw [hmd] at hj
    have hj0 : j = 0 := by omega
    subst hj0
    decide
  · have h := c5_findEocd_failure_modes_amended.2.2.2.1 zip64SentinelEocd 22 0
      (by rw [hzs]) (by rw [hzs]) (by rw [hzs]; decide) ⟨by decide, by decide⟩
      (fun k hk1 hk2 => absurd hk2 (by rw [hzs]; omega))
    rw [h, if_pos (by decide)]
  · have h := c5_findEocd_failure_modes_amended.2.2.2.1 cdSizeSentinelEocd 22 0
      (by rw [hcs]) (by rw [hcs]) (by rw [hcs]; decide) ⟨by decide, by decide⟩
      (fun k hk1 hk2 => absurd hk2 (by rw [hcs]; omega))
    rw [h, if_neg (by decide)]
    rfl
  · exact c5_findEocd_failure_modes_amended.2.2.2.2 zip64SentinelEocd 22 (by rfl)

theorem buildNewEntries_spec (files : List AppendFile) : ∀ off : Nat,
    ((buildNewEntries files off).1.map List.length) =
        files.map (fun f => 30 + f.name.length + f.data.length) ∧
      ((buildNewEntries files off).2.1.map List.length) =
        files.map (fun f => 46 + f.name.length) ∧
      (buildNewEntries files off).2.2 =
        off + (files.map (fun f => 30 + f.name.length + f.data.length)).sum := by
  induction files with
  | nil => intro off; simp [buildNewEntries]
  | cons f rest ih =>
    intro off
    obtain ⟨ih1, ih2, ih3⟩ := ih (off + (buildLocalEntry f.name f.data).length)
    refine ⟨?_, ?_, ?_⟩
    · simp only [buildNewEntries, List.map_cons]
      rw [ih1, buildLocalEntry_length]
    · simp only [buildNewEntries, List.map_cons]
      rw [ih2, buildCdEntry_length]
    · simp only [buildNewEntries, List.map_cons, List.sum_cons]
      rw [ih3, buildLocalEntry_length]
      omega

theorem slice_isInfix (l : Bytes) (a b : Nat) : slice l a b <:+: l := by
  refine ⟨l.take a, (l.drop a).drop (b - a), ?_⟩
  unfold slice
  rw [List.append_assoc, List.take_append_drop, List.take_append_drop]

theorem infix_flatten_of_mem (x : Bytes) (L : List Bytes) (h : x ∈ L) :
    x <:+: L.flatten := by
  induction L with
  | nil => cases h
  | cons y ys ih =>
    rw [List.flatten_cons]
    rcases List.mem_cons.mp h with rfl | h2
    · exact (List.prefix_append x ys.flatten).isInfix
    · exact (ih h2).trans (List.suffix_append y ys.flatten).isInfix

theorem parseCdLoop_raw_infix (cd : Bytes) : ∀ n pos, cd.length - pos = n →
    ∀ es, parseCdLoop cd pos = .ok es → ∀ e ∈ es, e.raw <:+: cd := by
  intro n
  induction n using Nat.strong_induction_on with
  | _ n ih =>
    intro pos hn es hok e he
    rw [parseCdLoop] at hok
    split at hok
    · split at hok
      · cases hok; cases he
      · split at hok
        · cases hok; cases he
        · split at hok
          · cases hok
          · dsimp only at hok
            split at hok
            · cases hok
            · split at hok
              · cases hok
              · rename_i rest hrest
                cases hok
                rcases List.mem_cons.mp he with rfl | h2
                · exact slice_isInfix cd pos _
                · rename_i hpos h4 hsig h46 hEnd
                  exact ih _ (by omega) _ rfl rest hrest e h2
    · cases hok; cases he

theorem parseCentralDirectory_raw_infix (cd : Bytes) (es : List CdEntry)
    (h : parseCentralDirectory cd = .ok es) : ∀ e ∈ es, e.raw <:+: cd := by
  rw [parseCentralDirectory] at h
  exact parseCdLoop_raw_infix cd (cd.length - 0) 0 rfl es h

theorem findEocd_append_eocd (front : Bytes) (te cs co : Nat)
    (hte2 : te % 65536 ≠ 0xffff) (hco2 : co % 2 ^ 32 ≠ 0xffffffff) :
    findEocd
        (slice (front ++ buildEocd te cs co)
          ((front ++ buildEocd te cs co).length -
            min (65536 + 22) (front ++ buildEocd te cs co).length)
          (front ++ buildEocd te cs co).length)
        (front ++ buildEocd te cs co).length =
      .ok ⟨(front ++ buildEocd te cs co).length - 22, te % 65536, cs % 2 ^ 32,
        co % 2 ^ 32⟩ := by
  have hG : (front ++ buildEocd te cs co).length = front.length + 22 := by
    simp [buildEocd_length]
  have hdropFront : (front ++ buildEocd te cs co).drop
      ((front ++ buildEocd te cs co).length -
        min (65536 + 22) (front ++ buildEocd te cs co).length) =
      front.drop (front.length + 22 - min (65536 + 22) (front.length + 22)) ++
        buildEocd te cs co := by
    rw [hG, List.drop_append_eq_append_drop]
    congr 1
    have h0 : front.length + 22 - min (65536 + 22) (front.length + 22) - front.length = 0 := by
      omega
    rw [h0]
    exact List.drop_zero _
  have hslice : slice (front ++ buildEocd te cs co)
      ((front ++ buildEocd te cs co).length -
        min (65536 + 22) (front ++ buildEocd te cs co).length)
      (front ++ buildEocd te cs co).length =
      front.drop (front.length + 22 - min (65536 + 22) (front.length + 22)) ++
        buildEocd te cs co := by
    unfold slice
    rw [hdropFront]
    apply List.take_of_length_le
    simp only [List.length_append, List.length_drop, buildEocd_length, hG]
    omega
  rw [hslice]
  set pre := front.drop (front.length + 22 - min (65536 + 22) (front.length + 22)) with hpre
  have hpreLen : pre.length = min (65536 + 22) (front.length + 22) - 22 := by
    rw [hpre]
    simp only [List.length_drop]
    omega
  have htails : (pre ++ buildEocd te cs co).length = min (65536 + 22) (front.length + 22) := by
    simp only [List.length_append, buildEocd_length, hpreLen]
    omega
  have hidx0 : (pre ++ buildEocd te cs co).length - 22 = pre.length + 0 := by
    simp only [List.length_append, buildEocd_length]
    omega
  have hidx8 : (pre ++ buildEocd te cs co).length - 14 = pre.length + 8 := by
    simp only [List.length_append, buildEocd_length]
    omega
  have hidx10 : (pre ++ buildEocd te cs co).length - 12 = pre.length + 10 := by
    simp only [List.length_append, buildEocd_length]
    omega
  have hidx12 : (pre ++ buildEocd te cs co).length - 10 = pre.length + 12 := by
    simp only [List.length_append, buildEocd_length]
    omega
  have hidx16 : (pre ++ buildEocd te cs co).length - 6 = pre.length + 16 := by
    simp only [List.length_append, buildEocd_length]
    omega
  have hsig : u32 (pre ++ buildEocd te cs co) ((pre ++ buildEocd te cs co).length - 22) =
      SIG_EOCD := by
    rw [hidx0, u32_append_skip pre _ pre.length 0 rfl, buildEocd_u32_0]
  have hdisk : u16 (pre ++ buildEocd te cs co) ((pre ++ buildEocd te cs co).length - 14) =
      u16 (pre ++ buildEocd te cs co) ((pre ++ buildEocd te cs co).length - 12) := by
    rw [hidx8, hidx10, u16_append_skip pre _ pre.length 8 rfl,
      u16_append_skip pre _ pre.length 10 rfl, buildEocd_u16_8, buildEocd_u16_10]
  have h12 : u16 (pre ++ buildEocd te cs co) ((pre ++ buildEocd te cs co).length - 12) =
      te % 65536 := by
    rw [hidx10, u16_append_skip pre _ pre.length 10 rfl, buildEocd_u16_10]
  have h10 : u32 (pre ++ buildEocd te cs co) ((pre ++ buildEocd te cs co).length - 10) =
      cs % 2 ^ 32 := by
    rw [hidx12, u32_append_skip pre _ pre.length 12 rfl, buildEocd_u32_12]
  have h6 : u32 (pre ++ buildEocd te cs co) ((pre ++ buildEocd te cs co).length - 6) =
      co % 2 ^ 32 := by
    rw [hidx16, u32_append_skip pre _ pre.length 16 rfl, buildEocd_u32_16]
  have hlen22 : 22 ≤ (pre ++ buildEocd te cs co).length := by
    simp only [List.length_append, buildEocd_length]
    omega
  rw [findEocd_probe_top (pre ++ buildEocd te cs co) (front ++ buildEocd te cs co).length
    hlen22 hsig hdisk (by rw [h6]; exact hco2) (by rw [h12]; exact hte2)]
  have hoffeq : (pre ++ buildEocd te cs co).length - 22 +
      ((front ++ buildEocd te cs co).length - (pre ++ buildEocd te cs co).length) =
      (front ++ buildEocd te cs co).length - 22 := by
    rw [htails, hG]
    omega
  rw [h12, h10, h6, hoffeq]

theorem appendToZipTail_eq (A : Bytes) (files : List AppendFile) (eocd : Eocd)
    (entries : List CdEntry) (hne : files ≠ [])
    (hfind : findEocd (slice A (A.length - min (65536 + 22) A.length) A.length)
      A.length = .ok eocd)
    (hparse : parseCentralDirectory (slice A eocd.cdOffset (eocd.cdOffset + eocd.cdSize)) =
      .ok entries) :
    appendToZipTail A files = .ok (eocd.cdOffset, newTail files eocd entries) := by
  unfold appendToZipTail
  rw [if_neg (by simp [hne])]
  simp only [hfind, hparse]
  rfl

theorem newTail_locals_len (files : List AppendFile) (off : Nat) :
    (buildNewEntries files off).1.flatten.length = newLocalsLen files := by
  rw [List.length_flatten, (buildNewEntries_spec files off).1, newLocalsLen]

theorem newTail_cds_len (files : List AppendFile) (off : Nat) :
    (buildNewEntries files off).2.1.flatten.length = newCdLen files := by
  rw [List.length_flatten, (buildNewEntries_spec files off).2.1, newCdLen]

theorem newTail_off (files : List AppendFile) (off : Nat) :
    (buildNewEntries files off).2.2 = off + newLocalsLen files := by
  rw [(buildNewEntries_spec files off).2.2, newLocalsLen]

theorem raws_flatten_len (entries : List CdEntry) :
    (entries.map (·.raw)).flatten.length = rawsLen entries := by
  rw [List.length_flatten, List.map_map]
  rfl

theorem raws_map_len (entries : List CdEntry) :
    ((entries.map (·.raw)).map List.length).sum = rawsLen entries := by
  rw [List.map_map]
  rfl

theorem cds_map_len (files : List AppendFile) (off : Nat) :
    ((buildNewEntries files off).2.1.map List.length).sum = newCdLen files := by
  rw [(buildNewEntries_spec files off).2.1, newCdLen]

theorem slice_cd_block (t l1 l2 l3 eo : Bytes) (a b c : Nat)
    (ha : (t ++ l1).length = a) (hb : l2.length = b) (hc : l3.length = c) :
    slice (t ++ l1 ++ l2 ++ l3 ++ eo) a (a + (b + c)) = l2 ++ l3 := by
  unfold slice
  have h1 : t ++ l1 ++ l2 ++ l3 ++ eo = (t ++ l1) ++ ((l2 ++ l3) ++ eo) := by
    simp only [List.append_assoc]
  rw [h1, List.drop_left' ha]
  have h2 : a + (b + c) - a = b + c := by omega
  have h3 : (l2 ++ l3).length = b + c := by rw [List.length_append, hb, hc]
  rw [h2, List.take_left' h3]

/-- C1: ZIP append is an extension.  For an archive `A` whose tail scan finds
a non-ZIP64 EOCD and whose central directory parses to `entries`
(`entries.length = eocd.entryCount`), with no counter overflowing its field,
`appendToZipTail` succeeds, the split offset is `eocd.cdOffset` (for a
non-empty file list), the rewritten archive `A[0, so) ++ tail` has an EOCD
whose entry count is `eocd.entryCount + files.length`, and every original
entry's raw CD bytes appear byte-identical (as a contiguous infix) in the new
central directory. -/
theorem c1_zip_append_extension
    (A : Bytes) (files : List AppendFile) (eocd : Eocd) (entries : List CdEntry)
    (hfind : findEocd (slice A (A.length - min (65536 + 22) A.length) A.length)
      A.length = .ok eocd)
    (hparse : parseCentralDirectory (slice A eocd.cdOffset (eocd.cdOffset + eocd.cdSize)) =
      .ok entries)
    (hcount : entries.length = eocd.entryCount)
    (hoff : eocd.cdOffset ≤ A.length)
    (hte : eocd.entryCount + files.length < 0xffff)
    (hcdo : eocd.cdOffset + newLocalsLen files < 0xffffffff)
    (hcs : rawsLen entries + newCdLen files < 2 ^ 32) :
    ∃ so tl, appendToZipTail A files = .ok (so, tl) ∧
      (files ≠ [] → so = eocd.cdOffset) ∧
      ∃ e2 : Eocd,
        findEocd (slice (A.take so ++ tl)
            ((A.take so ++ tl).length - min (65536 + 22) (A.take so ++ tl).length)
            (A.take so ++ tl).length) (A.take so ++ tl).length = .ok e2 ∧
        e2.entryCount = eocd.entryCount + files.length ∧
        ∀ en ∈ entries,
          en.raw <:+: slice (A.take so ++ tl) e2.cdOffset (e2.cdOffset + e2.cdSize) := by
  by_cases hne : files = []
  · subst hne
    refine ⟨A.length, [], rfl, fun h => absurd rfl h, eocd, ?_, by simp, ?_⟩
    · have hA : A.take A.length ++ ([] : Bytes) = A := by simp
      rw [hA]
      exact hfind
    · have hA : A.take A.length ++ ([] : Bytes) = A := by simp
      rw [hA]
      exact parseCentralDirectory_raw_infix _ entries hparse
  · refine ⟨eocd.cdOffset, newTail files eocd entries,
      appendToZipTail_eq A files eocd entries hne hfind hparse, fun _ => rfl, ?_⟩
    have hform : A.take eocd.cdOffset ++ newTail files eocd entries =
        (A.take eocd.cdOffset ++ (buildNewEntries files eocd.cdOffset).1.flatten ++
          (entries.map (·.raw)).flatten ++
          (buildNewEntries files eocd.cdOffset).2.1.flatten) ++
        buildEocd (entries.length + files.length)
          (((entries.map (·.raw)).map List.length).sum +
            ((buildNewEntries files eocd.cdOffset).2.1.map List.length).sum)
          (buildNewEntries files eocd.cdOffset).2.2 := by
      unfold newTail
      simp only [List.append_assoc]
    rw [hform]
    have hteOk : (entries.length + files.length) % 65536 ≠ 0xffff := by
      rw [Nat.mod_eq_of_lt (by omega)]
      omega
    have hcoOk : (buildNewEntries files eocd.cdOffset).2.2 % 2 ^ 32 ≠ 0xffffffff := by
      rw [newTail_off, Nat.mod_eq_of_lt (by omega)]
      omega
    refine ⟨_, findEocd_append_eocd _ _ _ _ hteOk hcoOk, ?_, ?_⟩
    · dsimp only
      omega
    · intro en hen
      dsimp only
      rw [raws_map_len, cds_map_len, newTail_off,
        Nat.mod_eq_of_lt (show eocd.cdOffset + newLocalsLen files < 2 ^ 32 by omega),
        Nat.mod_eq_of_lt (show rawsLen entries + newCdLen files < 2 ^ 32 from hcs)]
      rw [slice_cd_block (A.take eocd.cdOffset)
        (buildNewEntries files eocd.cdOffset).1.flatten
        ((entries.map (·.raw)).flatten)
        (buildNewEntries files eocd.cdOffset).2.1.flatten
        (buildEocd (entries.length + files.length)
          (rawsLen entries + newCdLen files)
          (eocd.cdOffset + newLocalsLen files))
        (eocd.cdOffset + newLocalsLen files) (rawsLen entries) (newCdLen files)
        (by rw [List.length_append, List.length_take, newTail_locals_len]; omega)
        (raws_flatten_len entries) (newTail_cds_len files eocd.cdOffset)]
      exact (infix_flatten_of_mem en.raw _ (List.mem_map_of_mem _ hen)).trans
        (List.prefix_append _ _).isInfix

theorem c1_zip_append_extension_witness :
    ∃ so tl, appendToZipTail (buildEocd 0 0 0) [⟨[97], [65, 66]⟩] = .ok (so, tl) ∧
      so = 0 ∧
      ∃ e2 : Eocd,
        findEocd (slice ((buildEocd 0 0 0).take so ++ tl)
            (((buildEocd 0 0 0).take so ++ tl).length -
              min (65536 + 22) ((buildEocd 0 0 0).take so ++ tl).length)
            ((buildEocd 0 0 0).take so ++ tl).length)
          ((buildEocd 0 0 0).take so ++ tl).length = .ok e2 ∧
        e2.entryCount = 1 := by
  obtain ⟨so, tl, h1, h2, e2, h3, h4, h5⟩ :=
    c1_zip_append_extension (buildEocd 0 0 0) [⟨[97], [65, 66]⟩] ⟨0, 0, 0, 0⟩ []
      (by rfl) (by rw [parseCentralDirectory, parseCdLoop]; rfl) rfl (by decide)
      (by decide) (by decide) (by decide)
  exact ⟨so, tl, h1, h2 (by decide), e2, h3, h4⟩

end ZipAppend

namespace WispProxy

theorem splitDot_ne_nil (h : Bytes) : splitDot h ≠ [] := by
  match h with
  | [] => simp [splitDot]
  | c :: rest =>
    rw [splitDot]
    by_cases hc : c = 46
    · simp [hc]
    · rw [if_neg hc]
      rcases hg : splitDot rest with _ | ⟨g, gs⟩ <;> simp

/-- A hostname starting with a byte that is neither a digit nor a dot is not
an IPv4 dotted-quad. -/
theorem head_not_digit_not_dottedQuad (c : Nat) (t : Bytes) (hd : isDigitByte c = false)
    (hdot : c ≠ 46) : isDottedQuad (c :: t) = false := by
  unfold isDottedQuad
  rw [splitDot, if_neg hdot]
  rcases hg : splitDot t with _ | ⟨g, gs⟩
  · exact absurd hg (splitDot_ne_nil t)
  · rcases gs with _ | ⟨b, gs2⟩
    · rfl
    · rcases gs2 with _ | ⟨c2, gs3⟩
      · rfl
      · rcases gs3 with _ | ⟨d, gs4⟩
        · rfl
        · rcases gs4 with _ | _
          · simp [List.all_cons, hd]
          · rfl

/-- Any hostname on the allowlist is neither an IPv4 dotted-quad nor a
bracketed IPv6 literal: all four patterns force a leading letter. -/
theorem allowedHost_not_ip (h : Bytes) (hall : allowedHost h = true) :
    isDottedQuad h = false ∧ isBracketedIPv6 h = false := by
  unfold allowedHost at hall
  simp only [Bool.or_eq_true, decide_eq_true_eq] at hall
  rcases hall with ((heq | heq) | heq) | hp
  · subst heq; exact ⟨by decide, by decide⟩
  · subst heq; exact ⟨by decide, by decide⟩
  · subst heq; exact ⟨by decide, by decide⟩
  · unfold pBuyMatch at hp
    match h, hp with
    | b :: rest, hp =>
      simp only [Bool.and_eq_true, decide_eq_true_eq] at hp
      obtain ⟨⟨hb, _⟩, _⟩ := hp
      subst hb
      exact ⟨head_not_digit_not_dottedQuad 112 rest (by decide) (by decide), by
        simp [isBracketedIPv6]⟩

/-- C2: tunnel admission.  A TCP socket open is attempted only when the
CONNECT payload carries `streamType = 1`, `port = 443`, and a hostname
matching the Apple allowlist — which is never an IPv4 dotted-quad or
bracketed IPv6 literal; every CONNECT the admission check rejects produces a
CLOSE with reason 0x41 and opens no socket. -/
theorem c2_tunnel_admission (payload : Bytes) :
    (∀ hn p, handleConnect payload = .openTcp hn p →
        payload.getD 0 0 = 1 ∧ p = 443 ∧ hn = payload.drop 3 ∧ allowedHost hn = true ∧
          isDottedQuad hn = false ∧ isBracketedIPv6 hn = false) ∧
    (∀ r, handleConnect payload = .close r → r = CLOSE_REASON_INVALID_INFO) := by
  constructor
  · intro hn p hopen
    unfold handleConnect at hopen
    dsimp only at hopen
    split at hopen
    · exact absurd hopen (by simp)
    · split at hopen
      · exact absurd hopen (by simp)
      · rename_i hcond
        push_neg at hcond
        obtain ⟨h1, h443, hallow⟩ := hcond
        injection hopen with e1 e2
        subst e1; subst e2
        obtain ⟨hq, hb⟩ := allowedHost_not_ip _ hallow
        exact ⟨h1, h443, rfl, hallow, hq, hb⟩
  · intro r hclose
    unfold handleConnect at hclose
    dsimp only at hclose
    split at hclose
    · injection hclose with e; exact e.symm
    · split at hclose
      · injection hclose with e; exact e.symm
      · exact absurd hclose (by simp)

/-- C2 witness: a valid CONNECT to `auth.itunes.apple.com:443` (type 1) is
admitted with all the guaranteed properties, and a CONNECT to `evil.com` is
rejected with CLOSE reason 0x41. -/
theorem c2_tunnel_admission_witness :
    ((1 : Nat) = 1 ∧ (443 : Nat) = 443 ∧
      strBytes "auth.itunes.apple.com" =
        (([1, 187, 1] ++ strBytes "auth.itunes.apple.com" : Bytes)).drop 3 ∧
      allowedHost (strBytes "auth.itunes.apple.com") = true ∧
      isDottedQuad (strBytes "auth.itunes.apple.com") = false ∧
      isBracketedIPv6 (strBytes "auth.itunes.apple.com") = false) ∧
    (0x41 : Nat) = CLOSE_REASON_INVALID_INFO :=
  ⟨by
    have h := (c2_tunnel_admission ([1, 187, 1] ++ strBytes "auth.itunes.apple.com")).1
      (strBytes "auth.itunes.apple.com") 443 (by decide)
    exact ⟨rfl, rfl, h.2.2.1, h.2.2.2.1, h.2.2.2.2.1, h.2.2.2.2.2⟩,
   (c2_tunnel_admission ([1, 187, 1] ++ strBytes "evil.com")).2 0x41 (by decide)⟩

end WispProxy

/-! ### Association-list storage lemmas -/

theorem lookupKV_cons_self {α : Type} (p : String × α) (rest : List (String × α))
    (k : String) (h : p.1 = k) : lookupKV (p :: rest) k = some p.2 := by
  unfold lookupKV
  rw [List.find?_cons_of_pos _ (by simpa using h)]
  rfl

theorem lookupKV_cons_ne {α : Type} (p : String × α) (rest : List (String × α))
    (k : String) (h : p.1 ≠ k) : lookupKV (p :: rest) k = lookupKV rest k := by
  unfold lookupKV
  rw [List.find?_cons_of_neg _ (by simpa using h)]

theorem lookupKV_insert_self {α : Type} (l : List (String × α)) (k : String) (v : α) :
    lookupKV (insertKV l k v) k = some v := by
  unfold insertKV
  rw [lookupKV_cons_self _ _ _ rfl]

theorem lookupKV_erase_ne {α : Type} (l : List (String × α)) (k k2 : String) (h : k2 ≠ k) :
    lookupKV (eraseKV l k) k2 = lookupKV l k2 := by
  induction l with
  | nil => rfl
  | cons p rest ih =>
    rw [eraseKV, List.filter_cons]
    by_cases hp : p.1 = k
    · rw [if_neg (by simpa using hp)]
      rw [show (List.filter (fun q => decide ¬(q.1 = k)) rest : List (String × α)) =
        eraseKV rest k from rfl, ih]
      rw [lookupKV_cons_ne _ _ _ (by rw [hp]; exact fun he => h he.symm)]
    · rw [if_pos (by simpa using hp)]
      by_cases hq : p.1 = k2
      · rw [lookupKV_cons_self _ _ _ hq, lookupKV_cons_self _ _ _ hq]
      · rw [lookupKV_cons_ne _ _ _ hq, lookupKV_cons_ne _ _ _ hq]
        exact ih

theorem lookupKV_erase_self {α : Type} (l : List (String × α)) (k : String) :
    lookupKV (eraseKV l k) k = none := by
  unfold lookupKV
  rw [List.find?_eq_none.mpr]
  · rfl
  · intro p hp
    have := List.of_mem_filter hp
    simpa using this

theorem lookupKV_insert_ne {α : Type} (l : List (String × α)) (k k2 : String) (v : α)
    (h : k2 ≠ k) : lookupKV (insertKV l k v) k2 = lookupKV l k2 := by
  unfold insertKV
  rw [lookupKV_cons_ne _ _ _ (fun he => h he.symm)]
  exact lookupKV_erase_ne l k k2 h

theorem lookupKV_singleton {α : Type} (a k : String) (v : α) :
    lookupKV [(a, v)] k = if a = k then some v else none := by
  by_cases h : a = k
  · rw [if_pos h, lookupKV_cons_self _ _ _ h]
  · rw [if_neg h, lookupKV_cons_ne _ _ _ h]
    rfl

/-- With duplicate-free keys, a stored pair is what lookup returns. -/
theorem lookupKV_of_mem_nodup {α : Type} (l : List (String × α)) (k : String) (v : α)
    (hnd : (l.map Prod.fst).Nodup) (hmem : (k, v) ∈ l) : lookupKV l k = some v := by
  induction l with
  | nil => cases hmem
  | cons p rest ih =>
    rw [List.mem_cons] at hmem
    rcases hmem with hmem | hmem
    · subst hmem
      exact lookupKV_cons_self _ _ _ rfl
    · have hk : p.1 ≠ k := by
        intro he
        have : p.1 ∈ rest.map Prod.fst := he ▸ List.mem_map_of_mem Prod.fst hmem
        simp only [List.map_cons, List.nodup_cons] at hnd
        exact hnd.1 this
      rw [lookupKV_cons_ne _ _ _ hk]
      exact ih (by simp only [List.map_cons, List.nodup_cons] at hnd; exact hnd.2) hmem

namespace DownloadManager

theorem sanitize_no_secrets (r : Record) (hasFile : Bool) (fileSize : Option Nat) :
    noSecrets (sanitize r hasFile fileSize) := by
  intro k hk hmem
  unfold sanitize at hmem
  rw [List.map_append, List.mem_append] at hmem
  rcases hmem with hmem | hmem
  · rw [List.mem_map] at hmem
    obtain ⟨kv, hkv, hfst⟩ := hmem
    have hp := List.of_mem_filter hkv
    subst hfst
    simp only [decide_eq_true_eq] at hp
    exact hp (List.elem_eq_true_of_mem hk)
  · fin_cases hk <;> simp_all

/-- C3: sanitization boundary — every record returned by `createTask`,
`getTask`, `listTasks`, or `getTaskPublic` has the fields `downloadURL`,
`sinfs`, `iTunesMetadata`, and `filePath` absent, for every store state,
input, and task state. -/
theorem c3_sanitization_boundary (s : StoreState) (p : CreateTaskParams) (urlOk : Bool)
    (newId : String) (now : Nat) (id accountHash : String) (hashes : List String) :
    (∀ s2 r, createTask s p urlOk newId now = .ok (s2, r) → noSecrets r) ∧
    (∀ r, getTask s id accountHash = some r → noSecrets r) ∧
    (∀ r, r ∈ listTasks s hashes → noSecrets r) ∧
    (∀ r, getTaskPublic s id = some r → noSecrets r) := by
  refine ⟨?_, ?_, ?_, ?_⟩
  · intro s2 r hok
    unfold createTask at hok
    dsimp only at hok
    split at hok
    · cases hok
    · split at hok
      · cases hok
      · split at hok
        · cases hok
        · injection hok with e
          injection e with e1 e2
          subst e2
          exact sanitize_no_secrets _ _ _
  · intro r hok
    unfold getTask at hok
    dsimp only at hok
    split at hok
    · cases hok
    · split at hok
      · cases hok
      · injection hok with e
        subst e
        exact sanitize_no_secrets _ _ _
  · intro r hmem
    unfold listTasks at hmem
    rw [List.mem_flatten] at hmem
    obtain ⟨sub, hsub, hr⟩ := hmem
    rw [List.mem_map] at hsub
    obtain ⟨hash, _, hsub⟩ := hsub
    subst hsub
    rw [List.mem_filterMap] at hr
    obtain ⟨tid, _, hr⟩ := hr
    dsimp only at hr
    split at hr
    · cases hr
    · injection hr with e
      subst e
      exact sanitize_no_secrets _ _ _
  · intro r hok
    unfold getTaskPublic at hok
    dsimp only at hok
    split at hok
    · cases hok
    · split at hok
      · cases hok
      · injection hok with e
        subst e
        intro k hk
        fin_cases hk <;> simp

/-- C3 witness: a concrete one-task store; `getTask` returns a record and it
carries no secret field. -/
theorem c3_sanitization_boundary_witness :
    ∀ r, getTask
        ⟨[("t1", ⟨"t1", ⟨"com.x", "1.0", "X"⟩, "aaaaaaaa", "https://cdn.apple.com/x.ipa",
          [⟨0, "s"⟩], some "m", .completed, 100, "0 B/s", none, 5, none⟩)],
         [("t1", "k1")], [("aaaaaaaa", ["t1"])], [("k1", 42)]⟩ "t1" "aaaaaaaa" = some r →
      noSecrets r :=
  (c3_sanitization_boundary
    ⟨[("t1", ⟨"t1", ⟨"com.x", "1.0", "X"⟩, "aaaaaaaa", "https://cdn.apple.com/x.ipa",
      [⟨0, "s"⟩], some "m", .completed, 100, "0 B/s", none, 5, none⟩)],
     [("t1", "k1")], [("aaaaaaaa", ["t1"])], [("k1", 42)]⟩
    ⟨⟨"com.x", "1.0", "X"⟩, "aaaaaaaa", "u", [], none⟩ true "t2" 0 "t1" "aaaaaaaa" []).2.1

/-- C7: the completion transition of the download pipeline and `deleteTask`
both preserve the completed-iff-keyed equivalence. -/
theorem c7_completed_iff_keyed (s : StoreState) (t : DownloadTask) (r2key : String)
    (id accountHash : String) :
    (completedIff s → completedIff (completeTransition s t r2key)) ∧
    (completedIff s → completedIff (deleteTask s id accountHash).2) := by
  constructor
  · intro hinv id0
    unfold completeTransition saveTask
    by_cases hid : id0 = t.id
    · subst hid
      simp only [loadTask]
      rw [lookupKV_insert_self]
      simp [lookupKV_insert_self]
    · simp only [loadTask]
      rw [lookupKV_insert_ne _ _ _ _ hid, lookupKV_insert_ne _ _ _ _ hid]
      exact hinv id0
  · intro hinv id0
    unfold deleteTask
    split
    · exact hinv id0
    · split
      · exact hinv id0
      · rename_i t0 _ _
        unfold removeFromAccountIndex deleteR2Files loadTask
        by_cases hid : id0 = id
        · subst hid
          simp only
          rw [lookupKV_erase_self, lookupKV_erase_self]
          simp
        · simp only
          rw [lookupKV_erase_ne _ _ _ hid, lookupKV_erase_ne _ _ _ hid]
          exact hinv id0

/-- C7 witness: the preservation applied to a concrete completed-consistent
one-task store, for both the completion transition and `deleteTask`. -/
theorem c7_completed_iff_keyed_witness :
    completedIff (completeTransition
      ⟨[("t1", ⟨"t1", ⟨"com.x", "1.0", "X"⟩, "aaaaaaaa", "u", [], none, .injecting, 100,
        "0 B/s", none, 5, none⟩)], [], [("aaaaaaaa", ["t1"])], []⟩
      ⟨"t1", ⟨"com.x", "1.0", "X"⟩, "aaaaaaaa", "u", [], none, .injecting, 100, "0 B/s",
        none, 5, none⟩ "k1") ∧
    completedIff (deleteTask
      ⟨[("t1", ⟨"t1", ⟨"com.x", "1.0", "X"⟩, "aaaaaaaa", "u", [], none, .completed, 100,
        "0 B/s", none, 5, none⟩)], [("t1", "k1")], [("aaaaaaaa", ["t1"])], [("k1", 9)]⟩
      "t1" "aaaaaaaa").2 :=
  ⟨(c7_completed_iff_keyed
      ⟨[("t1", ⟨"t1", ⟨"com.x", "1.0", "X"⟩, "aaaaaaaa", "u", [], none, .injecting, 100,
        "0 B/s", none, 5, none⟩)], [], [("aaaaaaaa", ["t1"])], []⟩
      ⟨"t1", ⟨"com.x", "1.0", "X"⟩, "aaaaaaaa", "u", [], none, .injecting, 100, "0 B/s",
        none, 5, none⟩ "k1" "t1" "aaaaaaaa").1 (by
      intro id0
      constructor
      · intro hs
        simp [lookupKV] at hs
      · rintro ⟨t0, ht, hc⟩
        rw [loadTask] at ht
        rw [lookupKV_singleton] at ht
        split at ht
        · injection ht with e
          subst e
          exact absurd hc (by decide)
        · cases ht),
   (c7_completed_iff_keyed
      ⟨[("t1", ⟨"t1", ⟨"com.x", "1.0", "X"⟩, "aaaaaaaa", "u", [], none, .completed, 100,
        "0 B/s", none, 5, none⟩)], [("t1", "k1")], [("aaaaaaaa", ["t1"])], [("k1", 9)]⟩
      ⟨"t1", ⟨"com.x", "1.0", "X"⟩, "aaaaaaaa", "u", [], none, .completed, 100, "0 B/s",
        none, 5, none⟩ "k1" "t1" "aaaaaaaa").2 (by
      intro id0
      rw [loadTask]
      rw [lookupKV_singleton, lookupKV_singleton]
      by_cases hid : ("t1" : String) = id0
      · rw [if_pos hid, if_pos hid]
        simp only [Option.isSome_some, true_iff]
        exact ⟨⟨"t1", ⟨"com.x", "1.0", "X"⟩, "aaaaaaaa", "u", [], none, .completed, 100,
          "0 B/s", none, 5, none⟩, rfl, rfl⟩
      · rw [if_neg hid, if_neg hid]
        simp)⟩

end DownloadManager

namespace Auth

/-- A filtered replay map still answers a lookup whose surviving first match
is unchanged. -/
theorem lookupKV_filter_of_pred {α : Type} (l : List (String × α))
    (pred : String × α → Bool) (k : String) (v : α) (hl : lookupKV l k = some v)
    (hp : pred (k, v) = true) : lookupKV (l.filter pred) k = some v := by
  induction l with
  | nil => cases hl
  | cons p rest ih =>
    by_cases hk : p.1 = k
    · rw [lookupKV_cons_self _ _ _ hk] at hl
      injection hl with hv
      rw [List.filter_cons]
      have hpp : pred p = true := by
        have : p = (k, v) := by
          obtain ⟨p1, p2⟩ := p
          simp only at hk hv
          rw [hk, hv]
        rw [this]; exact hp
      rw [if_pos hpp, lookupKV_cons_self _ _ _ hk, hv]
    · rw [lookupKV_cons_ne _ _ _ hk] at hl
      rw [List.filter_cons]
      by_cases hpp : pred p = true
      · rw [if_pos hpp, lookupKV_cons_ne _ _ _ hk]
        exact ih hl
      · rw [if_neg hpp]
        exact ih hl

/-- Accepting a solution marks the challenge with the acceptance time. -/
theorem verifyPow_accept_marks (hmacOk : List Char → List Char → Bool)
    (powOk : String → String → Bool) (st st2 : PowState) (c n : String) (t0 : Nat)
    (hacc : verifyPow hmacOk powOk st c n t0 = (true, st2)) :
    lookupKV st2 c = some t0 := by
  unfold verifyPow at hacc
  split at hacc
  · cases hacc
  · dsimp only at hacc
    split at hacc
    · cases hacc
    · split at hacc
      · cases hacc
      · split at hacc
        · cases hacc
        · split at hacc
          · cases hacc
          · split at hacc
            · cases hacc
            · injection hacc with _ hst
              subst hst
              split
              · exact lookupKV_filter_of_pred _ _ _ _ (lookupKV_insert_self st c t0)
                  (by simp)
              · exact lookupKV_insert_self st c t0

/-- A marked challenge can never be accepted again (result is `false`). -/
theorem verifyPow_marked_rejects (hmacOk : List Char → List Char → Bool)
    (powOk : String → String → Bool) (st : PowState) (c n : String) (t : Nat)
    (hmark : (lookupKV st c).isSome) :
    (verifyPow hmacOk powOk st c n t).1 = false := by
  unfold verifyPow
  split
  · rfl
  · dsimp only
    rw [if_pos hmark]

/-- Any call leaves a fresh-enough mark in place: either it fails (map
unchanged), or it inserts a different challenge and possibly prunes entries
older than `2·TTL`. -/
theorem verifyPow_preserves_mark (hmacOk : List Char → List Char → Bool)
    (powOk : String → String → Bool) (st : PowState) (c c2 n2 : String) (t0 t : Nat)
    (hmark : lookupKV st c = some t0) (hage : t - t0 ≤ POW_CHALLENGE_TTL * 2) :
    lookupKV (verifyPow hmacOk powOk st c2 n2 t).2 c = some t0 := by
  unfold verifyPow
  split
  · exact hmark
  · dsimp only
    by_cases hused : (lookupKV st c2).isSome
    · rw [if_pos hused]
      exact hmark
    · rw [if_neg hused]
      have hne : c ≠ c2 := by
        intro he
        rw [← he, hmark] at hused
        exact hused rfl
      split
      · exact hmark
      · split
        · exact hmark
        · split
          · exact hmark
          · split
            · exact hmark
            · dsimp only
              have hins : lookupKV (insertKV st c2 t) c = some t0 := by
                rw [lookupKV_insert_ne _ _ _ _ hne]
                exact hmark
              split
              · exact lookupKV_filter_of_pred _ _ _ _ hins (by simp; omega)
              · exact hins

/-- C9: PoW one-shot.  Once `verifyPow` has accepted a `(challenge, nonce)`
pair at time `t0`, any later call with the same challenge within the
challenge's TTL — after any sequence of intervening calls inside that window
— returns `false`, whatever nonce is supplied.  `tsC` is the timestamp
embedded in the challenge; a genuine challenge is issued before its first
use (`tsC ≤ t0`). -/
theorem c9_pow_one_shot (hmacOk : List Char → List Char → Bool)
    (powOk : String → String → Bool) (st0 st1 : PowState) (c n n2 : String)
    (t0 tf tsC : Nat) (calls : List (String × String × Nat))
    (haccept : verifyPow hmacOk powOk st0 c n t0 = (true, st1))
    (hts : challengeTimestamp c = some tsC)
    (hts0 : tsC ≤ t0)
    (hcalls : ∀ q ∈ calls, t0 ≤ q.2.2 ∧ q.2.2 ≤ tsC + POW_CHALLENGE_TTL)
    (hfTTL : tf ≤ tsC + POW_CHALLENGE_TTL) :
    (verifyPow hmacOk powOk (execCalls hmacOk powOk st1 calls) c n2 tf).1 = false := by
  have hmark : lookupKV (execCalls hmacOk powOk st1 calls) c = some t0 := by
    have h0 : lookupKV st1 c = some t0 :=
      verifyPow_accept_marks hmacOk powOk st0 st1 c n t0 haccept
    clear haccept
    induction calls generalizing st1 with
    | nil => exact h0
    | cons q rest ih =>
      unfold execCalls
      rw [List.foldl_cons]
      exact ih _ (fun q2 hq2 => hcalls q2 (List.mem_cons_of_mem q hq2))
        (verifyPow_preserves_mark hmacOk powOk st1 c q.1 q.2.1 t0 q.2.2 h0
          (by have := hcalls q (List.mem_cons_self q rest); omega))
  exact verifyPow_marked_rejects hmacOk powOk _ c n2 tf (by rw [hmark]; rfl)

/-- C9 witness: a concrete acceptance at `t = 1` of the challenge
`"1:u:s"` followed immediately by a retry at `t = 2` (within the TTL), which
is rejected. -/
theorem c9_pow_one_shot_witness :
    (verifyPow (fun _ _ => true) (fun _ _ => true)
      (execCalls (fun _ _ => true) (fun _ _ => true) [("1:u:s", 1)] []) "1:u:s" "y" 2).1 =
      false :=
  c9_pow_one_shot (fun _ _ => true) (fun _ _ => true) [] [("1:u:s", 1)] "1:u:s" "x" "y"
    1 2 1 [] (by decide) (by decide) (by decide) (by simp) (by decide)

end Auth

namespace DownloadManager

theorem eraseKV_of_fresh {α : Type} (l : List (String × α)) (k : String)
    (h : ∀ q ∈ l, q.1 ≠ k) : eraseKV l k = l :=
  List.filter_eq_self.mpr fun q hq => by simpa using h q hq

/-- A stored conflicting task makes the dedup scan of `createTask` fire. -/
theorem createTask_scan_fires (s : StoreState) (p : CreateTaskParams) (wf : WfState s)
    (q : String × DownloadTask) (hq : q ∈ s.tasks) (hacc : q.2.accountHash = p.accountHash)
    (hb : q.2.software.bundleID = p.software.bundleID)
    (hv : q.2.software.version = p.software.version)
    (hs : q.2.status ≠ TaskStatus.failed) :
    (((lookupKV s.accounts p.accountHash).getD []).any fun eid =>
      match loadTask s eid with
      | some t =>
        t.software.bundleID = p.software.bundleID ∧ t.software.version = p.software.version ∧
          t.status ≠ TaskStatus.failed
      | none => false) = true := by
  rw [List.any_eq_true]
  refine ⟨q.1, ?_, ?_⟩
  · have hidx := wf.2.2 q hq
    rw [hacc] at hidx
    exact hidx
  · have hload : loadTask s q.1 = some q.2 :=
      lookupKV_of_mem_nodup s.tasks q.1 q.2 wf.1 (by rwa [Prod.mk.eta])
    rw [hload]
    simpa using ⟨hb, hv, hs⟩

/-- Everything in the non-failed filter comes from a stored pair. -/
theorem nonFailedWith_mem (s : StoreState) (h b v : String) (t : DownloadTask)
    (hmem : t ∈ nonFailedWith s h b v) :
    ∃ q ∈ s.tasks, q.2 = t ∧ t.accountHash = h ∧ t.software.bundleID = b ∧
      t.software.version = v ∧ t.status ≠ TaskStatus.failed := by
  unfold nonFailedWith at hmem
  have hp := List.of_mem_filter hmem
  have hm := List.mem_of_mem_filter hmem
  rw [List.mem_map] at hm
  obtain ⟨q, hq, hqt⟩ := hm
  simp only [decide_eq_true_eq] at hp
  exact ⟨q, hq, hqt, hp.1, hp.2.1, hp.2.2.1, hp.2.2.2⟩

/-- C6: deduplication.  A successful `createTask` preserves the at-most-one
non-failed-task-per-(accountHash, bundleID, version) invariant (together
with store well-formedness), and `createTask` fails with the conflict error
whenever a non-failed task with the same account hash, bundle id and
version is already stored. -/
theorem c6_dedup_invariant (s : StoreState) (p : CreateTaskParams) (urlOk : Bool)
    (newId : String) (now : Nat) :
    (WfState s → dedupInv s → (∀ q ∈ s.tasks, q.1 ≠ newId) →
      ∀ s2 r, createTask s p urlOk newId now = .ok (s2, r) → dedupInv s2 ∧ WfState s2) ∧
    (urlOk = true → ¬ p.accountHash.length < MIN_ACCOUNT_HASH_LENGTH → WfState s →
      (∃ q ∈ s.tasks, q.2.accountHash = p.accountHash ∧
        q.2.software.bundleID = p.software.bundleID ∧
        q.2.software.version = p.software.version ∧ q.2.status ≠ TaskStatus.failed) →
      createTask s p urlOk newId now = .error .conflict) := by
  constructor
  · intro wf hdedup hfresh s2 r hok
    unfold createTask at hok
    dsimp only at hok
    split at hok
    · cases hok
    · split at hok
      · cases hok
      · split at hok
        · cases hok
        · rename_i hurl hlen hscan
          injection hok with e
          injection e with e1 e2
          subst e1
          set task : DownloadTask :=
            { id := newId, software := p.software, accountHash := p.accountHash,
              downloadURL := p.downloadURL, sinfs := p.sinfs,
              iTunesMetadata := p.iTunesMetadata, status := TaskStatus.pending,
              progress := 0, speed := "0 B/s", error := none, createdAt := now,
              filePath := none } with htask
          have htasks2 :
              (addToAccountIndex (saveTask s task) p.accountHash newId).tasks =
                (newId, task) :: s.tasks := by
            unfold addToAccountIndex saveTask insertKV
            dsimp only
            split <;>
              · dsimp only
                rw [eraseKV_of_fresh s.tasks newId hfresh]
          have haccs :
              (addToAccountIndex (saveTask s task) p.accountHash newId).accounts =
                if newId ∈ (lookupKV s.accounts p.accountHash).getD [] then s.accounts
                else insertKV s.accounts p.accountHash
                  ((lookupKV s.accounts p.accountHash).getD [] ++ [newId]) := by
            unfold addToAccountIndex saveTask
            dsimp only
            split <;> rfl
          constructor
          · -- dedup invariant on the new state
            intro h b v
            have hfil : nonFailedWith
                (addToAccountIndex (saveTask s task) p.accountHash newId) h b v =
                List.filter (fun t =>
                  decide (t.accountHash = h ∧ t.software.bundleID = b ∧
                    t.software.version = v ∧ t.status ≠ TaskStatus.failed))
                  (task :: s.tasks.map Prod.snd) := by
              unfold nonFailedWith
              rw [htasks2]
              rfl
            have hold : nonFailedWith s h b v =
                List.filter (fun t =>
                  decide (t.accountHash = h ∧ t.software.bundleID = b ∧
                    t.software.version = v ∧ t.status ≠ TaskStatus.failed))
                  (s.tasks.map Prod.snd) := rfl
            rw [hfil, List.filter_cons]
            split
            · rename_i hpred
              simp only [decide_eq_true_eq] at hpred
              obtain ⟨hh, hbb, hvv, _⟩ := hpred
              rw [List.length_cons]
              have hempty : (nonFailedWith s h b v).length = 0 := by
                rw [List.length_eq_zero]
                by_contra hne
                obtain ⟨t, ht⟩ := List.exists_mem_of_ne_nil _ hne
                obtain ⟨q, hq, hqt, hth, htb, htv, hts⟩ := nonFailedWith_mem s h b v t ht
                have := createTask_scan_fires s p wf q hq
                  (by rw [hqt, hth, ← hh])
                  (by rw [hqt, htb, ← hbb])
                  (by rw [hqt, htv, ← hvv])
                  (by rw [hqt]; exact hts)
                exact hscan this
              rw [hold] at hempty
              rw [hempty]
            · rw [← hold]
              exact hdedup h b v
          · -- well-formedness of the new state
            refine ⟨?_, ?_, ?_⟩
            · rw [htasks2]
              simp only [List.map_cons, List.nodup_cons]
              exact ⟨fun hmem => by
                rw [List.mem_map] at hmem
                obtain ⟨q, hq, hqe⟩ := hmem
                exact hfresh q hq hqe, wf.1⟩
            · rw [htasks2]
              intro q hq
              rw [List.mem_cons] at hq
              rcases hq with hq | hq
              · subst hq; rfl
              · exact wf.2.1 q hq
            · rw [htasks2]
              intro q hq
              rw [haccs]
              rw [List.mem_cons] at hq
              by_cases hmem : newId ∈ (lookupKV s.accounts p.accountHash).getD []
              · rw [if_pos hmem]
                rcases hq with hq | hq
                · subst hq
                  exact hmem
                · exact wf.2.2 q hq
              · rw [if_neg hmem]
                rcases hq with hq | hq
                · subst hq
                  dsimp only
                  rw [lookupKV_insert_self]
                  simp only [Option.getD_some]
                  exact List.mem_append_right _ (List.mem_singleton.mpr rfl)
                · by_cases hh2 : q.2.accountHash = p.accountHash
                  · rw [hh2, lookupKV_insert_self]
                    simp only [Option.getD_some]
                    have hidx := wf.2.2 q hq
                    rw [hh2] at hidx
                    exact List.mem_append_left _ hidx
                  · rw [lookupKV_insert_ne _ _ _ _ hh2]
                    exact wf.2.2 q hq
  · intro hurl hlen wf hex
    obtain ⟨q, hq, hacc, hb, hv, hs⟩ := hex
    unfold createTask
    rw [if_neg (by simp [hurl])]
    rw [if_neg hlen]
    dsimp only
    rw [if_pos (createTask_scan_fires s p wf q hq hacc hb hv hs)]

/-- C6 witness: creating a task in an empty store succeeds and preserves the
invariant, and re-creating the same (bundleID, version) for the same account
hash afterwards is rejected with the conflict error. -/
theorem c6_dedup_invariant_witness :
    (∀ s2 r, createTask ⟨[], [], [], []⟩ ⟨⟨"com.x", "1.0", "X"⟩, "aaaaaaaa", "u", [], none⟩
        true "t1" 7 = .ok (s2, r) → dedupInv s2 ∧ WfState s2) ∧
    createTask
      ⟨[("t1", ⟨"t1", ⟨"com.x", "1.0", "X"⟩, "aaaaaaaa", "u", [], none, .pending, 0,
        "0 B/s", none, 7, none⟩)], [], [("aaaaaaaa", ["t1"])], []⟩
      ⟨⟨"com.x", "1.0", "X"⟩, "aaaaaaaa", "u", [], none⟩ true "t2" 9 = .error .conflict :=
  ⟨(c6_dedup_invariant ⟨[], [], [], []⟩ ⟨⟨"com.x", "1.0", "X"⟩, "aaaaaaaa", "u", [], none⟩
      true "t1" 7).1
      ⟨by simp, by simp, by simp⟩ (by intro h b v; simp [nonFailedWith]) (by simp),
   (c6_dedup_invariant
      ⟨[("t1", ⟨"t1", ⟨"com.x", "1.0", "X"⟩, "aaaaaaaa", "u", [], none, .pending, 0,
        "0 B/s", none, 7, none⟩)], [], [("aaaaaaaa", ["t1"])], []⟩
      ⟨⟨"com.x", "1.0", "X"⟩, "aaaaaaaa", "u", [], none⟩ true "t2" 9).2
      rfl (by decide) (by unfold WfState; exact ⟨by simp, by decide, by decide⟩)
      ⟨("t1", ⟨"t1", ⟨"com.x", "1.0", "X"⟩, "aaaaaaaa", "u", [], none, .pending, 0,
        "0 B/s", none, 7, none⟩), by simp, rfl, rfl, rfl, by decide⟩⟩

/-! ### C4: streamToR2 part sizing and numbering -/

theorem mergeChunksGo_length_le (chunks : List Bytes) (need : Nat) :
    (mergeChunksGo chunks need).1.length ≤ need := by
  induction chunks generalizing need with
  | nil => simp [mergeChunksGo]
  | cons c rest ih =>
    rw [mergeChunksGo]
    by_cases h0 : need = 0
    · rw [if_pos h0]
      simp [h0]
    · rw [if_neg h0]
      by_cases hc : c.length ≤ need
      · rw [if_pos hc]
        dsimp only
        rw [List.length_append]
        have := ih (need - c.length)
        omega
      · rw [if_neg hc]
        dsimp only
        rw [List.length_take]
        omega

theorem mergeChunks_length (chunks : List Bytes) (size : Nat) :
    (mergeChunks chunks size).1.length = size := by
  unfold mergeChunks
  dsimp only
  rw [List.length_append, List.length_replicate]
  have := mergeChunksGo_length_le chunks size
  omega

theorem mergeAll_length (chunks : List Bytes) (size : Nat) :
    (mergeAll chunks size).length = size := by
  unfold mergeAll
  rw [List.length_append, List.length_replicate]
  have := mergeChunksGo_length_le chunks size
  omega

theorem range'_one_snoc (n : Nat) (h : 1 ≤ n) :
    List.range' 1 (n - 1) ++ [n] = List.range' 1 n := by
  obtain ⟨m, rfl⟩ : ∃ m, n = m + 1 := ⟨n - 1, by omega⟩
  rw [List.range'_concat]
  simp [Nat.add_comm]

theorem toList_map_none : (Option.map Prod.fst (none : Option (Nat × Bytes))).toList = [] :=
  rfl

/-- With an empty pending slot the invariant's number list is just the
uploaded parts. -/
theorem uploadInv_parts_eq (st : UploadState) (hp : st.pending = none)
    (h : UploadInv st) :
    st.parts.map Prod.fst = List.range' 1 (st.partNum - 1) := by
  have h2 := h.2.1
  rw [hp, toList_map_none, List.append_nil] at h2
  exact h2

theorem awaitPending_inv (st : UploadState) (h : UploadInv st) :
    UploadInv (awaitPending st) ∧ (awaitPending st).pending = none := by
  obtain ⟨h1, h2, h3, h4⟩ := h
  unfold awaitPending
  cases hp : st.pending with
  | none =>
    dsimp only
    exact ⟨⟨h1, h2, h3, h4⟩, hp⟩
  | some pr =>
    rw [hp] at h2 h4
    dsimp only
    refine ⟨⟨h1, ?_, ?_, by simp⟩, rfl⟩
    · dsimp only
      rw [List.map_append, toList_map_none, List.append_nil]
      simpa using h2
    · dsimp only
      intro q hq
      rw [List.mem_append] at hq
      rcases hq with hq | hq
      · exact h3 q hq
      · rw [List.mem_singleton] at hq
        subst hq
        exact h4 q rfl

theorem flushWhile_inv (st : UploadState) (hp : st.pending = none) (h : UploadInv st) :
    UploadInv (flushWhile st) ∧ (flushWhile st).pending = none := by
  obtain ⟨n, hn⟩ : ∃ n, st.bufferSize = n := ⟨st.bufferSize, rfl⟩
  induction n using Nat.strong_induction_on generalizing st with
  | _ n ih =>
    rw [flushWhile]
    split
    · rename_i hge
      refine ih (st.bufferSize - UPLOAD_PART_SIZE) (by
          have hpos : 0 < UPLOAD_PART_SIZE := by decide
          omega) _ hp ?_ rfl
      have h2 := uploadInv_parts_eq st hp h
      obtain ⟨h1, _, h3, _⟩ := h
      refine ⟨by dsimp only; omega, ?_, ?_, by dsimp only; rw [hp]; simp⟩
      · dsimp only
        rw [hp, toList_map_none, List.append_nil, List.map_append]
        simp only [List.map_cons, List.map_nil]
        rw [h2, Nat.add_sub_cancel]
        exact range'_one_snoc st.partNum h1
      · dsimp only
        intro q hq
        rw [List.mem_append] at hq
        rcases hq with hq | hq
        · exact h3 q hq
        · rw [List.mem_singleton] at hq
          subst hq
          exact mergeChunks_length st.chunks UPLOAD_PART_SIZE
    · exact ⟨h, hp⟩

theorem drainFull_inv (st : UploadState) (hp : st.pending = none) (h : UploadInv st) :
    UploadInv (drainFull st) ∧ (drainFull st).pending = none := by
  obtain ⟨n, hn⟩ : ∃ n, st.bufferSize = n := ⟨st.bufferSize, rfl⟩
  induction n using Nat.strong_induction_on generalizing st with
  | _ n ih =>
    rw [drainFull]
    split
    · rename_i hge
      refine ih (st.bufferSize - UPLOAD_PART_SIZE) (by
          have hpos : 0 < UPLOAD_PART_SIZE := by decide
          omega) _ hp ?_ rfl
      have h2 := uploadInv_parts_eq st hp h
      obtain ⟨h1, _, h3, _⟩ := h
      refine ⟨by dsimp only; omega, ?_, ?_, by dsimp only; rw [hp]; simp⟩
      · dsimp only
        rw [hp, toList_map_none, List.append_nil, List.map_append]
        simp only [List.map_cons, List.map_nil]
        rw [h2, Nat.add_sub_cancel]
        exact range'_one_snoc st.partNum h1
      · dsimp only
        intro q hq
        rw [List.mem_append] at hq
        rcases hq with hq | hq
        · exact h3 q hq
        · rw [List.mem_singleton] at hq
          subst hq
          exact mergeChunks_length st.chunks UPLOAD_PART_SIZE
    · exact ⟨h, hp⟩

theorem flushBuffer_inv (st : UploadState) (h : UploadInv st) :
    UploadInv (flushBuffer st) := by
  unfold flushBuffer
  obtain ⟨ha, hap⟩ := awaitPending_inv st h
  obtain ⟨hf, hfp⟩ := flushWhile_inv (awaitPending st) hap ha
  dsimp only
  split
  · have h2 := uploadInv_parts_eq _ hfp hf
    obtain ⟨h1, _, h3, _⟩ := hf
    refine ⟨by dsimp only; omega, ?_, by dsimp only; exact h3, ?_⟩
    · dsimp only
      rw [Nat.add_sub_cancel, h2]
      exact range'_one_snoc (flushWhile (awaitPending st)).partNum h1
    · dsimp only
      intro q hq
      simp only [Option.mem_def, Option.some_inj] at hq
      subst hq
      exact mergeChunks_length _ UPLOAD_PART_SIZE
  · exact hf

theorem processChunk_inv (st : UploadState) (v : Bytes) (h : UploadInv st) :
    UploadInv (processChunk st v) := by
  unfold processChunk
  dsimp only
  have hmid : UploadInv
      { chunks := st.chunks ++ [v], bufferSize := st.bufferSize + v.length,
        partNum := st.partNum, parts := st.parts, pending := st.pending } := by
    obtain ⟨h1, h2, h3, h4⟩ := h
    exact ⟨h1, h2, h3, h4⟩
  split
  · exact flushBuffer_inv _ hmid
  · exact hmid

theorem foldl_processChunk_inv (incoming : List Bytes) (st : UploadState)
    (h : UploadInv st) : UploadInv (incoming.foldl processChunk st) := by
  induction incoming generalizing st with
  | nil => exact h
  | cons c rest ih =>
    rw [List.foldl_cons]
    exact ih _ (processChunk_inv st c h)

theorem finishStream_parts (st : UploadState) (h : UploadInv st) :
    (finishStream st).parts.map Prod.fst =
      List.range' 1 (finishStream st).parts.length ∧
    ∀ pr ∈ (finishStream st).parts.dropLast, pr.2.length = UPLOAD_PART_SIZE := by
  unfold finishStream
  dsimp only
  obtain ⟨ha, hap⟩ := awaitPending_inv st h
  obtain ⟨hd, hdp⟩ := drainFull_inv (awaitPending st) hap ha
  obtain ⟨h1, h2, h3, _⟩ := hd
  rw [hdp, toList_map_none, List.append_nil] at h2
  have hlen : (drainFull (awaitPending st)).parts.length =
      (drainFull (awaitPending st)).partNum - 1 := by
    have := congrArg List.length h2
    simpa using this
  split
  · constructor
    · dsimp only
      rw [List.map_append]
      simp only [List.map_cons, List.map_nil]
      rw [h2, List.length_append, hlen]
      simp only [List.length_cons, List.length_nil]
      rw [range'_one_snoc _ h1]
      congr 1
      omega
    · dsimp only
      rw [List.dropLast_concat]
      exact h3
  · exact ⟨by rw [h2, hlen], fun pr hpr => h3 pr ((List.dropLast_sublist _).subset hpr)⟩

theorem insertPart_of_le (p : Nat × Bytes) (l : List (Nat × Bytes))
    (hle : ∀ q ∈ l, p.1 ≤ q.1) : insertPart p l = p :: l := by
  cases l with
  | nil => rfl
  | cons q qs =>
    rw [insertPart, if_pos (hle q (List.mem_cons_self q qs))]

theorem sortParts_of_sorted (l : List (Nat × Bytes))
    (h : l.Pairwise (fun a b => a.1 ≤ b.1)) : sortParts l = l := by
  induction l with
  | nil => rfl
  | cons p rest ih =>
    rw [List.pairwise_cons] at h
    unfold sortParts
    rw [List.foldr_cons]
    rw [show List.foldr insertPart [] rest = sortParts rest from rfl, ih h.2]
    exact insertPart_of_le p rest h.1

/-- C4: for every stream of body chunks, the parts submitted to `complete`
carry the consecutive part numbers `1, 2, …, n` in strictly increasing
order, and every part except the one with the highest part number is
exactly `UPLOAD_PART_SIZE` (25 MiB). -/
theorem c4_multipart_parts (incoming : List Bytes) :
    (streamToR2 incoming).map Prod.fst = List.range' 1 (streamToR2 incoming).length ∧
    ∀ pr ∈ (streamToR2 incoming).dropLast, pr.2.length = UPLOAD_PART_SIZE := by
  have hinv : UploadInv (incoming.foldl processChunk ⟨[], 0, 1, [], none⟩) :=
    foldl_processChunk_inv incoming _ ⟨le_rfl, by simp, by simp, by simp⟩
  have hfin := finishStream_parts _ hinv
  have hsorted : (finishStream (incoming.foldl processChunk ⟨[], 0, 1, [], none⟩)).parts.Pairwise
      (fun a b => a.1 ≤ b.1) := by
    have hlt := List.pairwise_lt_range' 1
      (finishStream (incoming.foldl processChunk ⟨[], 0, 1, [], none⟩)).parts.length
    rw [← hfin.1, List.pairwise_map] at hlt
    exact hlt.imp Nat.le_of_lt
  unfold streamToR2
  rw [sortParts_of_sorted _ hsorted]
  exact hfin

/-! ### C8: janitor phase behaviour -/

theorem phase1_skip (now2 : Nat) (st : JState) (entries : List CEntry) :
    phase1 0 now2 st entries = (st, entries, 0) := by
  unfold phase1
  rw [if_neg (by decide)]

theorem phase2_skip (st : JState) (survivors : List CEntry) :
    phase2 0 st survivors = (st, []) := by
  unfold phase2
  rw [if_neg (by simp)]

theorem mem_insertByCreated (y e : CEntry) (l : List CEntry) :
    y ∈ insertByCreated e l ↔ y = e ∨ y ∈ l := by
  induction l with
  | nil => simp [insertByCreated]
  | cons x xs ih =>
    rw [insertByCreated]
    split
    · simp [or_comm, or_assoc, or_left_comm]
    · rw [List.mem_cons, ih, List.mem_cons]
      tauto

theorem insertByCreated_pairwise (e : CEntry) (l : List CEntry)
    (h : l.Pairwise (fun a b => a.task.createdAt ≤ b.task.createdAt)) :
    (insertByCreated e l).Pairwise (fun a b => a.task.createdAt ≤ b.task.createdAt) := by
  induction l with
  | nil => simp [insertByCreated]
  | cons x xs ih =>
    rw [List.pairwise_cons] at h
    rw [insertByCreated]
    split
    · rename_i hle
      rw [List.pairwise_cons]
      refine ⟨?_, List.pairwise_cons.mpr h⟩
      intro y hy
      rw [List.mem_cons] at hy
      rcases hy with hy | hy
      · subst hy; exact hle
      · exact le_trans hle (h.1 y hy)
    · rename_i hgt
      rw [List.pairwise_cons]
      refine ⟨?_, ih h.2⟩
      intro y hy
      rw [mem_insertByCreated] at hy
      rcases hy with hy | hy
      · subst hy; omega
      · exact h.1 y hy

theorem sortByCreated_pairwise (l : List CEntry) :
    (sortByCreated l).Pairwise (fun a b => a.task.createdAt ≤ b.task.createdAt) := by
  induction l with
  | nil => exact List.Pairwise.nil
  | cons e rest ih =>
    unfold sortByCreated
    rw [List.foldr_cons]
    exact insertByCreated_pairwise e _ ih

/-- The quota loop purges a prefix of its (sorted) input, each purge happens
while the running total still exceeds the cap, and it stops as soon as the
total is at or below the cap (or the list is exhausted). -/
theorem phase2Go_spec (maxBytes : Nat) (l : List CEntry) (st : JState) :
    ∃ k, k ≤ l.length ∧
      (phase2Go maxBytes l st).2 = (l.take k).map (·.id) ∧
      (phase2Go maxBytes l st).1 = (l.take k).foldl purgeEntry st ∧
      (∀ j, j < k → maxBytes < ((l.take j).foldl purgeEntry st).total) ∧
      (k = l.length ∨ ((l.take k).foldl purgeEntry st).total ≤ maxBytes) := by
  induction l generalizing st with
  | nil =>
    exact ⟨0, le_rfl, rfl, rfl, by omega, .inl rfl⟩
  | cons e rest ih =>
    rw [phase2Go]
    by_cases hle : st.total ≤ maxBytes
    · rw [if_pos hle]
      exact ⟨0, by simp, rfl, rfl, by omega, .inr (by simpa using hle)⟩
    · rw [if_neg hle]
      obtain ⟨k, hk, hp2, hp1, hpre, hend⟩ := ih (purgeEntry st e)
      refine ⟨k + 1, by simpa using hk, ?_, ?_, ?_, ?_⟩
      · dsimp only
        rw [List.take_succ_cons, List.map_cons, hp2]
      · dsimp only
        rw [List.take_succ_cons, List.foldl_cons]
        exact hp1
      · intro j hj
        cases j with
        | zero =>
          simpa using Nat.lt_of_not_le hle
        | succ j2 =>
          rw [List.take_succ_cons, List.foldl_cons]
          exact hpre j2 (by omega)
      · rcases hend with hend | hend
        · left
          rw [List.length_cons]
          omega
        · right
          rw [List.take_succ_cons, List.foldl_cons]
          exact hend

/-- C8: the age phase runs only when `days > 0`, the quota phase only when
`maxMB > 0`, the orphan phase always runs (with both other phases disabled,
a cleanup run still batch-deletes exactly the unreferenced bucket keys), and
when the total exceeds the cap the quota phase purges a prefix of the
survivors sorted by ascending `createdAt`, stopping as soon as the running
total is at or below the cap. -/
theorem c8_janitor_phases (s : StoreState) (days maxMB now : Nat) :
    (∀ (now2 : Nat) (st : JState) (entries : List CEntry),
        phase1 0 now2 st entries = (st, entries, 0)) ∧
    (∀ (st : JState) (survivors : List CEntry), phase2 0 st survivors = (st, [])) ∧
    (days = 0 → maxMB = 0 →
      cleanupExpired s days maxMB now =
        (⟨0, 0,
          (s.bucket.filter (fun q => ¬ (s.r2keys.map (·.2)).contains q.1)).length,
          (s.bucket.map (·.2)).sum -
            ((s.bucket.filter (fun q => ¬ (s.r2keys.map (·.2)).contains q.1)).map
              (·.2)).sum⟩,
        { s with bucket :=
            ((s.bucket.filter (fun q => ¬ (s.r2keys.map (·.2)).contains q.1)).map
              (·.1)).foldl eraseKV s.bucket })) ∧
    (∀ (maxMB2 : Nat) (st : JState) (survivors : List CEntry),
        0 < maxMB2 → maxMB2 * 1024 * 1024 < st.total →
        ∃ k, k ≤ (sortByCreated survivors).length ∧
          (phase2 maxMB2 st survivors).2 = ((sortByCreated survivors).take k).map (·.id) ∧
          (phase2 maxMB2 st survivors).1 =
            ((sortByCreated survivors).take k).foldl purgeEntry st ∧
          (∀ j, j < k →
            maxMB2 * 1024 * 1024 <
              (((sortByCreated survivors).take j).foldl purgeEntry st).total) ∧
          (k = (sortByCreated survivors).length ∨
            (((sortByCreated survivors).take k).foldl purgeEntry st).total ≤
              maxMB2 * 1024 * 1024) ∧
          ((sortByCreated survivors).take k).Pairwise
            (fun a b => a.task.createdAt ≤ b.task.createdAt)) := by
  refine ⟨phase1_skip, phase2_skip, ?_, ?_⟩
  · intro h0 hm
    subst h0
    subst hm
    unfold cleanupExpired
    dsimp only
    rw [phase1_skip]
    dsimp only
    rw [phase2_skip]
    dsimp only
    unfold phase3
    dsimp only
    rfl
  · intro maxMB2 st survivors hpos htot
    unfold phase2
    rw [if_pos ⟨hpos, htot⟩]
    obtain ⟨k, hk, hp2, hp1, hpre, hend⟩ :=
      phase2Go_spec (maxMB2 * 1024 * 1024) (sortByCreated survivors) st
    exact ⟨k, hk, hp2, hp1, hpre, hend,
      (sortByCreated_pairwise survivors).sublist (List.take_sublist k _)⟩

/-- C8 witness: with `days = 0` and `maxMB = 0` a cleanup run on a store
holding one unreferenced blob deletes exactly that orphan; and the quota
phase, applied when the total exceeds the cap, purges the single survivor. -/
theorem c8_janitor_phases_witness :
    (cleanupExpired ⟨[], [], [], [("orphan", 7)]⟩ 0 0 0 =
      (⟨0, 0,
        (([("orphan", 7)] : List (String × Nat)).filter
          (fun q => ¬ (([] : List (String × String)).map (·.2)).contains q.1)).length,
        (([("orphan", 7)] : List (String × Nat)).map (·.2)).sum -
          ((([("orphan", 7)] : List (String × Nat)).filter
            (fun q => ¬ (([] : List (String × String)).map (·.2)).contains q.1)).map
            (·.2)).sum⟩,
      { tasks := [], r2keys := [], accounts := [],
        bucket :=
          ((([("orphan", 7)] : List (String × Nat)).filter
            (fun q => ¬ (([] : List (String × String)).map (·.2)).contains q.1)).map
            (·.1)).foldl eraseKV [("orphan", 7)] })) ∧
    (∃ k, k ≤ (sortByCreated [⟨"t1",
        ⟨"t1", ⟨"com.x", "1.0", "X"⟩, "aaaaaaaa", "u", [], none, .completed, 100, "0 B/s",
          none, 5, none⟩, some "k1"⟩]).length ∧
      (phase2 1 ⟨⟨[], [], [], [("k1", 2000000)]⟩, [("k1", 2000000)], 2000000⟩
        [⟨"t1", ⟨"t1", ⟨"com.x", "1.0", "X"⟩, "aaaaaaaa", "u", [], none, .completed, 100,
          "0 B/s", none, 5, none⟩, some "k1"⟩]).2 =
        ((sortByCreated [⟨"t1", ⟨"t1", ⟨"com.x", "1.0", "X"⟩, "aaaaaaaa", "u", [], none,
          .completed, 100, "0 B/s", none, 5, none⟩, some "k1"⟩]).take k).map (·.id) ∧
      (phase2 1 ⟨⟨[], [], [], [("k1", 2000000)]⟩, [("k1", 2000000)], 2000000⟩
        [⟨"t1", ⟨"t1", ⟨"com.x", "1.0", "X"⟩, "aaaaaaaa", "u", [], none, .completed, 100,
          "0 B/s", none, 5, none⟩, some "k1"⟩]).1 =
        ((sortByCreated [⟨"t1", ⟨"t1", ⟨"com.x", "1.0", "X"⟩, "aaaaaaaa", "u", [], none,
          .completed, 100, "0 B/s", none, 5, none⟩, some "k1"⟩]).take k).foldl purgeEntry
          ⟨⟨[], [], [], [("k1", 2000000)]⟩, [("k1", 2000000)], 2000000⟩ ∧
      (∀ j, j < k →
        1 * 1024 * 1024 <
          (((sortByCreated [⟨"t1", ⟨"t1", ⟨"com.x", "1.0", "X"⟩, "aaaaaaaa", "u", [], none,
            .completed, 100, "0 B/s", none, 5, none⟩, some "k1"⟩]).take j).foldl purgeEntry
            ⟨⟨[], [], [], [("k1", 2000000)]⟩, [("k1", 2000000)], 2000000⟩).total) ∧
      (k = (sortByCreated [⟨"t1", ⟨"t1", ⟨"com.x", "1.0", "X"⟩, "aaaaaaaa", "u", [], none,
          .completed, 100, "0 B/s", none, 5, none⟩, some "k1"⟩]).length ∨
        (((sortByCreated [⟨"t1", ⟨"t1", ⟨"com.x", "1.0", "X"⟩, "aaaaaaaa", "u", [], none,
          .completed, 100, "0 B/s", none, 5, none⟩, some "k1"⟩]).take k).foldl purgeEntry
          ⟨⟨[], [], [], [("k1", 2000000)]⟩, [("k1", 2000000)], 2000000⟩).total ≤
          1 * 1024 * 1024) ∧
      ((sortByCreated [⟨"t1", ⟨"t1", ⟨"com.x", "1.0", "X"⟩, "aaaaaaaa", "u", [], none,
          .completed, 100, "0 B/s", none, 5, none⟩, some "k1"⟩]).take k).Pairwise
        (fun a b => a.task.createdAt ≤ b.task.createdAt)) :=
  ⟨(c8_janitor_phases ⟨[], [], [], [("orphan", 7)]⟩ 0 0 0).2.2.1 rfl rfl,
   (c8_janitor_phases ⟨[], [], [], []⟩ 0 0 0).2.2.2 1
      ⟨⟨[], [], [], [("k1", 2000000)]⟩, [("k1", 2000000)], 2000000⟩
      [⟨"t1", ⟨"t1", ⟨"com.x", "1.0", "X"⟩, "aaaaaaaa", "u", [], none, .completed, 100,
        "0 B/s", none, 5, none⟩, some "k1"⟩] (by decide) (by decide)⟩

end DownloadManager

end AssppWeb